import Mathlib

/-!
Verification of the Ripple Effect CSP model builder
(`src/ripple_effect_csp.py`).

The Python module compiles a Ripple Effect puzzle (a board plus a list of
rooms) into an extensional CSP: an `N × M` grid of variables, one n-ary
all-different constraint per room, and binary spatial-separation
constraints for every same-row / same-column pair of cells.

The `cspbase` module (`Variable`, `Constraint`, `CSP`) is an external
collaborator that is not part of this repository; its operations are
modelled from the specification (§3 data model, §6 external interfaces).
Everything else is a direct shallow embedding of the Python source:
Python list indexing (including negative-index wrap-around and the
`IndexError` on out-of-range access) is modelled by `pyIdx`/`pyGet`,
`list.remove`'s `ValueError` by `pyRemove` returning `none`, and each
`for` loop by a structural recursion in source order.  Fallible code
returns `Option`: `none` is an uncaught Python exception.
-/

/-- A raw board entry: either an integer (0 = unknown, nonzero = clue) or a
separator string such as `' '`, `'|'`, `'-'`. -/
inductive Cell where
  | num (n : Int)
  | sep (s : String)
deriving DecidableEq, Repr

/-- Modelled from the spec: a `cspbase.Variable` — identity (name), a finite
domain of candidate values, and an optional fixed assignment (§3). -/
structure Variable where
  name : String
  domain : List Cell
  assignedValue : Option Cell
deriving DecidableEq, Repr

/-- Modelled from the spec: `Variable.add_domain_values` extends the domain. -/
def Variable.addDomainValues (v : Variable) (values : List Cell) : Variable :=
  { v with domain := v.domain ++ values }

/-- Modelled from the spec: `Variable.assign` marks the variable assigned;
clue values are accepted without range checking (§4.1, §7). -/
def Variable.assign (v : Variable) (value : Cell) : Variable :=
  { v with assignedValue := some value }

/-- Modelled from the spec: a constraint is a named relation over an ordered
scope, represented extensionally as a list of satisfying tuples (§3). -/
structure Constraint where
  name : String
  scope : List Variable
  satTuples : List (List Cell)
deriving DecidableEq, Repr

/-- Modelled from the spec: `Constraint.add_satisfying_tuples` registers
tuples into the constraint's table. -/
def Constraint.addSatisfyingTuples (c : Constraint) (tuples : List (List Cell)) :
    Constraint :=
  { c with satTuples := c.satTuples ++ tuples }

/-- Modelled from the spec: the assembled CSP model container — owns the
variables, the room list and the constraint list (§3, §4.4). -/
structure CSP where
  name : String
  vars : List Variable
  rooms : List (List (Int × Int))
  cons : List Constraint
deriving DecidableEq, Repr

/-- Modelled from the spec: register a variable in the model (§4.4). -/
def CSP.addVar (c : CSP) (v : Variable) : CSP :=
  { c with vars := c.vars ++ [v] }

/-- Modelled from the spec: register a room in the model (§4.4). -/
def CSP.addRoom (c : CSP) (r : List (Int × Int)) : CSP :=
  { c with rooms := c.rooms ++ [r] }

/-- Modelled from the spec: register a constraint in the model (§4.4). -/
def CSP.addConstraint (c : CSP) (k : Constraint) : CSP :=
  { c with cons := c.cons ++ [k] }

/-- Python list indexing: a nonnegative index is in range when `< len`; a
negative index wraps to `len + i` when `-i ≤ len`; everything else raises
`IndexError` (`none`). -/
def pyIdx (len : Nat) (i : Int) : Option Nat :=
  if 0 ≤ i then
    if i < (len : Int) then some i.toNat else none
  else
    if -i ≤ (len : Int) then some (len - (-i).toNat) else none

/-- Python `l[i]` with wrap-around and `IndexError`. -/
def pyGet (l : List α) (i : Int) : Option α :=
  (pyIdx l.length i).bind fun n => l.get? n

/-- Python `l[i] = a` with wrap-around and `IndexError`. -/
def pySet (l : List α) (i : Int) (a : α) : Option (List α) :=
  (pyIdx l.length i).map fun n => l.set n a

/-- Python `l.remove(a)`: deletes the first occurrence of `a`, raising
`ValueError` (`none`) when `a` is absent. -/
def pyRemove [BEq α] [LawfulBEq α] (l : List α) (a : α) : Option (List α) :=
  if a ∈ l then some (l.erase a) else none

/-- Python `l.insert(i, a)` for a nonnegative index: inserts before
position `i`, clamping to an append when `i` exceeds the length. -/
def pyInsert (l : List Cell) (i : Nat) (a : Cell) : List Cell :=
  if i ≤ l.length then l.insertIdx i a else l ++ [a]

/-- Python truthiness of `val != 0` on a board entry: separator strings
compare unequal to `0`. -/
def cellNeZero : Cell → Bool
  | Cell.num n => decide (n ≠ 0)
  | Cell.sep _ => true

/-- The variable name `"V{i},{j}"` used by `make_variable`. -/
def varName (i j : Nat) : String :=
  "V" ++ toString i ++ "," ++ toString j

/-- The initial grid of `make_variable`, line 61: one fresh variable per
logical coordinate, empty domain, unassigned. -/
def initGrid (M N : Nat) : List (List Variable) :=
  (List.range N).map fun i => (List.range M).map fun j => ⟨varName i j, [], none⟩

/-- The board read `board[i * 2][j * 2]` of `make_variable`, line 70. -/
def boardVal (board : List (List Cell)) (i j : Int) : Option Cell :=
  (pyGet board (i * 2)).bind fun row => pyGet row (j * 2)

/-- The domain values `[(n+1) for n in range(k)]`, also the pool `it` of
`room_constraint`, line 79: the cells `1, …, k`. -/
def itList (k : Nat) : List Cell :=
  (List.range k).map fun (n : Nat) => Cell.num ((n : Int) + 1)

/-- One iteration of the inner loop of `make_variable`, lines 66-73: fetch
the cell's variable (Python indexing), extend its domain by `1..maxDomain`,
and if the board holds a nonzero entry assign it and collapse the domain. -/
def placeCell (board : List (List Cell)) (maxDomain : Nat)
    (grid : List (List Variable)) (cell : Int × Int) : Option (List (List Variable)) := do
  let row ← pyGet grid cell.1
  let v ← pyGet row cell.2
  let v := v.addDomainValues (itList maxDomain)
  let val ← boardVal board cell.1 cell.2
  let v := if cellNeZero val then { v.assign val with domain := [val] } else v
  let ii ← pyIdx grid.length cell.1
  let jj ← pyIdx row.length cell.2
  pure (grid.set ii (row.set jj v))

/-- The loop `for cell in room` of `make_variable`, lines 66-73. -/
def placeRoom (board : List (List Cell)) (maxDomain : Nat) :
    List (Int × Int) → List (List Variable) → Option (List (List Variable))
  | [], grid => some grid
  | cell :: rest, grid =>
      (placeCell board maxDomain grid cell).bind (placeRoom board maxDomain rest)

/-- The loop `for room in rooms` of `make_variable`, lines 64-73. -/
def placeRooms (board : List (List Cell)) :
    List (List (Int × Int)) → List (List Variable) → Option (List (List Variable))
  | [], grid => some grid
  | room :: rest, grid =>
      (placeRoom board room.length room grid).bind (placeRooms board rest)

/-- `make_variable(board, rooms, M, N)`, lines 59-75. -/
def makeVariable (board : List (List Cell)) (rooms : List (List (Int × Int)))
    (M N : Nat) : Option (List (List Variable)) :=
  placeRooms board rooms (initGrid M N)

/-- The scope collection of `room_constraint`, lines 82-84:
`var_array[i][j]` for each room cell, with Python indexing. -/
def scopeOf (varArray : List (List Variable)) : List (Int × Int) →
    Option (List Variable)
  | [] => some []
  | cell :: rest =>
      ((pyGet varArray cell.1).bind fun row => pyGet row cell.2).bind fun v =>
        (scopeOf varArray rest).map (v :: ·)

/-- The pruning loop of `room_constraint`, lines 88-92: walk
`enumerate(scope)`, record `(index, value)` for each assigned variable and
remove that value from the pool (`ValueError` when absent). -/
def collectFound : List Variable → Nat → List Cell →
    Option (List (Nat × Cell) × List Cell)
  | [], _, it => some ([], it)
  | v :: rest, i, it =>
      match v.assignedValue with
      | some val => (pyRemove it val).bind fun it2 =>
          (collectFound rest (i + 1) it2).map fun r => ((i, val) :: r.1, r.2)
      | none => collectFound rest (i + 1) it

/-- The reinsertion loops of `room_constraint`, lines 97-99: for each
recorded `(i, val)`, insert `val` at position `i` of every tuple. -/
def insertFound (found : List (Nat × Cell)) (tups : List (List Cell)) :
    List (List Cell) :=
  found.foldl (fun ts p => ts.map fun t => pyInsert t p.1 p.2) tups

/-- `room_constraint(var_array, room, k)`, lines 77-106.  The table is the
full permutation enumeration of the pruned pool
(`itertools.permutations(it)`); the enumeration order carries no meaning
(the table is consumed as a set), so the structurally recursive
`List.permutations'` is used as the enumeration. -/
def roomConstraint (varArray : List (List Variable)) (room : List (Int × Int))
    (k : Nat) : Option Constraint := do
  let scope ← scopeOf varArray room
  let r ← collectFound scope 0 (itList room.length)
  let satTuples := insertFound r.1 r.2.permutations'
  pure (Constraint.addSatisfyingTuples ⟨"C" ++ toString k, scope, []⟩ satTuples)

/-- The diagonal pairs removed from `n_dist_tuples[n]` by `space_constraint`,
lines 111-113: `zip(range(n+1, max_rsize+1), range(n+1, max_rsize+1))` yields
the pair `(v, v)` for every `v = n+1, …, max_rsize`. -/
def diagPairs (R n : Nat) : List (List Cell) :=
  (List.range (R - n)).map fun m =>
    [Cell.num ((n + 1 + m : Nat) : Int), Cell.num ((n + 1 + m : Nat) : Int)]

/-- `list(itertools.product(range(1, R+1), repeat=2))`, line 110: all ordered
pairs over `1..R`, in lexicographic order. -/
def prodPairs (R : Nat) : List (List Cell) :=
  ((List.range R).product (List.range R)).map fun p =>
    [Cell.num ((p.1 : Int) + 1), Cell.num ((p.2 : Int) + 1)]

/-- The removal loop of `space_constraint`, lines 112-113, on one table:
`remove` each diagonal pair in turn (`ValueError` when absent). -/
def removeDiag : List (List Cell) → List (List Cell) → Option (List (List Cell))
  | [], tbl => some tbl
  | d :: rest, tbl => (pyRemove tbl d).bind (removeDiag rest)

/-- The per-index table construction of `n_dist_tuples`, lines 110-113, for
a list of indices `n`. -/
def nDistAux (R : Nat) : List Nat → Option (List (List (List Cell)))
  | [] => some []
  | n :: rest =>
      (removeDiag (diagPairs R n) (prodPairs R)).bind fun tbl =>
        (nDistAux R rest).map (tbl :: ·)

/-- `n_dist_tuples` after the loops of lines 110-113: for each
`n < max_rsize`, the product table with the diagonal pairs `(v, v)`,
`v ≥ n+1`, removed. -/
def nDistTuples (R : Nat) : Option (List (List (List Cell))) :=
  nDistAux R (List.range R)

/-- The pair/distance enumeration of lines 118-120 (and 127-129): for each
ordered pair `(a, b)` from `product(range(K), repeat=2)` and each
`n in range(max_rsize)`, keep `(a, b, n)` exactly when `abs(a - b) == n+1`. -/
def spacePairs (K R : Nat) : List (Nat × Nat × Nat) :=
  ((List.range K).product (List.range K)).flatMap fun p =>
    (List.range R).filterMap fun n =>
      if ((p.1 : Int) - (p.2 : Int)).natAbs = n + 1 then some (p.1, p.2, n) else none

/-- `make_constraint(var1, var2)`, lines 135-136. -/
def makeConstraint (var1 var2 : Variable) : Constraint :=
  ⟨"C-" ++ var1.name ++ ":" ++ var2.name, [var1, var2], []⟩

/-- The body of the row sweep, lines 121-123: build the binary constraint
over `(var_array[i][a], var_array[i][b])` with table `n_dist_tuples[n]`. -/
def rowCon (varArray : List (List Variable)) (tbls : List (List (List Cell)))
    (i : Nat) (t : Nat × Nat × Nat) : Option Constraint := do
  let row ← varArray.get? i
  let v1 ← row.get? t.1
  let v2 ← row.get? t.2.1
  let tbl ← tbls.get? t.2.2
  pure (Constraint.addSatisfyingTuples (makeConstraint v1 v2) tbl)

/-- The body of the column sweep, lines 130-132: build the binary constraint
over `(var_array[a][i], var_array[b][i])` with table `n_dist_tuples[n]`. -/
def colCon (varArray : List (List Variable)) (tbls : List (List (List Cell)))
    (i : Nat) (t : Nat × Nat × Nat) : Option Constraint := do
  let row1 ← varArray.get? t.1
  let v1 ← row1.get? i
  let row2 ← varArray.get? t.2.1
  let v2 ← row2.get? i
  let tbl ← tbls.get? t.2.2
  pure (Constraint.addSatisfyingTuples (makeConstraint v1 v2) tbl)

/-- The constraints appended for one axis index `i`: the matched
pair/distance triples in order, each built by the loop body. -/
def sweepPairs (body : Nat → Nat × Nat × Nat → Option Constraint) (i : Nat) :
    List (Nat × Nat × Nat) → Option (List Constraint)
  | [] => some []
  | t :: rest =>
      (body i t).bind fun c => (sweepPairs body i rest).map (c :: ·)

/-- One axis sweep of `space_constraint`: for each axis index `i` and each
matched pair/distance triple, append the built constraint. -/
def sweep (body : Nat → Nat × Nat × Nat → Option Constraint) :
    List Nat → List (Nat × Nat × Nat) → List Constraint → Option (List Constraint)
  | [], _, acc => some acc
  | i :: rest, pairs, acc =>
      (sweepPairs body i pairs).bind fun cs => sweep body rest pairs (acc ++ cs)

/-- `space_constraint(var_array, max_rsize, M, N)`, lines 108-133: the
precomputed distance tables, then the row sweep, then the column sweep. -/
def spaceConstraint (varArray : List (List Variable)) (maxRsize M N : Nat) :
    Option (List Constraint) := do
  let tbls ← nDistTuples maxRsize
  let rowCons ← sweep (rowCon varArray tbls) (List.range N) (spacePairs M maxRsize) []
  sweep (colCon varArray tbls) (List.range M) (spacePairs N maxRsize) rowCons

/-- Python `max(list)`: raises `ValueError` on an empty list. -/
def pyMax : List Nat → Option Nat
  | [] => none
  | x :: xs => some (xs.foldl max x)

/-- The room-constraint comprehension of line 37:
`[room_constraint(var_array, room, k+1) for k, room in enumerate(rooms)]`. -/
def roomConsFrom (varArray : List (List Variable)) :
    Nat → List (List (Int × Int)) → Option (List Constraint)
  | _, [] => some []
  | k, room :: rest =>
      (roomConstraint varArray room (k + 1)).bind fun c =>
        (roomConsFrom varArray (k + 1) rest).map (c :: ·)

/-- `ripple_effect_csp_model(initial_RP_board, rooms)`, lines 4-57. -/
def rippleEffectCspModel (board : List (List Cell))
    (rooms : List (List (Int × Int))) : Option (CSP × List (List Variable)) := do
  let firstRow ← pyGet board 0
  let M := (firstRow.length + 1) / 2
  let N := (board.length + 1) / 2
  let varArray ← makeVariable board rooms M N
  let roomCons ← roomConsFrom varArray 0 rooms
  let maxRsize ← pyMax (rooms.map List.length)
  let spaceCons ← spaceConstraint varArray maxRsize M N
  let csp0 : CSP := ⟨"Ripple_Effect", [], [], []⟩
  let csp1 := varArray.foldl (fun c row => row.foldl CSP.addVar c) csp0
  let csp2 := rooms.foldl CSP.addRoom csp1
  let csp3 := roomCons.foldl CSP.addConstraint csp2
  let csp4 := spaceCons.foldl CSP.addConstraint csp3
  pure (csp4, varArray)

/-! ### Basic facts about the Python-semantics helpers -/

/-- The values held by the clue-fixed variables of a scope, in scope order. -/
def assignedVals (scope : List Variable) : List Cell :=
  scope.filterMap Variable.assignedValue

/-- The number of unassigned (free) variables of a scope. -/
def freeCount (scope : List Variable) : Nat :=
  (scope.filter fun v => v.assignedValue.isNone).length

/-- Per-tuple view of the reinsertion loop: insert each recorded fixed value
in turn into a single tuple. -/
def insertAll (found : List (Nat × Cell)) (t : List Cell) : List Cell :=
  found.foldl (fun t p => pyInsert t p.1 p.2) t

/-- Reference interleaving of the fixed values of a scope with a tuple of
free values: fixed positions take their clue, free positions consume the
tuple left to right. -/
def mergeTuple : List Variable → List Cell → List Cell
  | [], t => t
  | v :: rest, t =>
      match v.assignedValue with
      | some val => val :: mergeTuple rest t
      | none =>
          match t with
          | [] => []
          | x :: t2 => x :: mergeTuple rest t2

/-- Bump the recorded scope positions by one. -/
def shiftFound (found : List (Nat × Cell)) : List (Nat × Cell) :=
  found.map fun p => (p.1 + 1, p.2)

/-- C1 witness data: one room of size 3 whose middle cell is clue-fixed
to `2`. -/
def w1Grid : List (List Variable) :=
  [[⟨"V0,0", [], none⟩, ⟨"V0,1", [Cell.num 2], some (Cell.num 2)⟩,
    ⟨"V0,2", [], none⟩]]

def w1Room : List (Int × Int) := [(0, 0), (0, 1), (0, 2)]

def w1Scope : List Variable :=
  [⟨"V0,0", [], none⟩, ⟨"V0,1", [Cell.num 2], some (Cell.num 2)⟩,
   ⟨"V0,2", [], none⟩]

/-- C4 counterexample data: a room of size 2 whose two cells are both
clue-fixed to `1`. -/
def c4Grid : List (List Variable) :=
  [[⟨"V0,0", [Cell.num 1], some (Cell.num 1)⟩,
    ⟨"V0,1", [Cell.num 1], some (Cell.num 1)⟩]]

def c4Room : List (Int × Int) := [(0, 0), (0, 1)]

def c4Scope : List Variable :=
  [⟨"V0,0", [Cell.num 1], some (Cell.num 1)⟩,
   ⟨"V0,1", [Cell.num 1], some (Cell.num 1)⟩]

/-- C3 witness: the amended statement applies to the concrete out-of-range
clue. -/
def c3Grid : List (List Variable) :=
  [[⟨"V0,0", [Cell.num 2], some (Cell.num 2)⟩]]

def c3Scope : List Variable := [⟨"V0,0", [Cell.num 2], some (Cell.num 2)⟩]

/-- The cell-index distance `abs(a - b)` of an ordered pair. -/
def pairDist (a b : Nat) : Nat := ((a : Int) - (b : Int)).natAbs

/-- Fallback variable for total indexing in the explicit description of the
generated constraint list. -/
def var0 : Variable := ⟨"", [], none⟩

/-- The row-sweep constraint for axis index `i` and matched triple
`(a, b, n)`, written with total lookups. -/
def rowConEx (varArray : List (List Variable)) (tbls : List (List (List Cell)))
    (i : Nat) (t : Nat × Nat × Nat) : Constraint :=
  Constraint.addSatisfyingTuples
    (makeConstraint ((varArray.getD i []).getD t.1 var0)
      ((varArray.getD i []).getD t.2.1 var0))
    (tbls.getD t.2.2 [])

/-- The column-sweep constraint for axis index `i` and matched triple
`(a, b, n)`, written with total lookups. -/
def colConEx (varArray : List (List Variable)) (tbls : List (List (List Cell)))
    (i : Nat) (t : Nat × Nat × Nat) : Constraint :=
  Constraint.addSatisfyingTuples
    (makeConstraint ((varArray.getD t.1 []).getD i var0)
      ((varArray.getD t.2.1 []).getD i var0))
    (tbls.getD t.2.2 [])

/-- C5 witness grid: one row of two fresh variables. -/
def w5Grid : List (List Variable) := initGrid 2 1

/-- Look up the variable of logical cell `(i, j)` in a grid. -/
def gridAt (g : List (List Variable)) (i j : Nat) : Option Variable :=
  (g.get? i).bind fun row => row.get? j

/-- A well-formed `N × M` grid: `N` rows of `M` variables. -/
def wfGrid (g : List (List Variable)) (M N : Nat) : Prop :=
  g.length = N ∧ ∀ row ∈ g, row.length = M

/-- A room cell written with in-range nonnegative coordinates. -/
def canonCell (c : Int × Int) (M N : Nat) : Prop :=
  ∃ a b : Nat, c = ((a : Int), (b : Int)) ∧ a < N ∧ b < M

/-- The update `make_variable` applies to one visited variable: extend the
domain by `1..k`, then on a nonzero board entry assign it and collapse the
domain. -/
def transformVar (k : Nat) (val : Cell) (v : Variable) : Variable :=
  if cellNeZero val then
    { (v.addDomainValues (itList k)).assign val with domain := [val] }
  else v.addDomainValues (itList k)

/-- C6 witness board: one row, clue `2` in the middle cell. -/
def w6Board : List (List Cell) :=
  [[Cell.num 0, Cell.sep " ", Cell.num 2, Cell.sep " ", Cell.num 0]]

def w6Rooms : List (List (Int × Int)) := [[(0, 0), (0, 1), (0, 2)]]

def w6Grid : List (List Variable) :=
  [[⟨"V0,0", [Cell.num 1, Cell.num 2, Cell.num 3], none⟩,
    ⟨"V0,1", [Cell.num 2], some (Cell.num 2)⟩,
    ⟨"V0,2", [Cell.num 1, Cell.num 2, Cell.num 3], none⟩]]

/-- C8 witness model: the `1 × 1` board with one unit room. -/
def w8Va : List (List Variable) := [[⟨"V0,0", [Cell.num 1], none⟩]]

def w8Csp : CSP :=
  ⟨"Ripple_Effect", [⟨"V0,0", [Cell.num 1], none⟩], [[(0, 0)]],
    [⟨"C1", [⟨"V0,0", [Cell.num 1], none⟩], [[Cell.num 1]]⟩]⟩

/-- C10 witness model: a `1 × 2` board whose single room covers only cell
`(0, 0)`, leaving `(0, 1)` in no room. -/
def w10Board : List (List Cell) := [[Cell.num 0, Cell.sep " ", Cell.num 0]]

def w10Rooms : List (List (Int × Int)) := [[(0, 0)]]

def w10Va : List (List Variable) :=
  [[⟨"V0,0", [Cell.num 1], none⟩, ⟨"V0,1", [], none⟩]]

theorem pyIdx_coe (len i : Nat) :
    pyIdx len (i : Int) = if i < len then some i else none := by
  simp only [pyIdx, Int.ofNat_nonneg, if_true, Int.toNat_ofNat]
  by_cases h : i < len
  · rw [if_pos (by exact_mod_cast h), if_pos h]
  · rw [if_neg (by exact_mod_cast h), if_neg h]

theorem pyGet_coe (l : List α) (i : Nat) : pyGet l (i : Int) = l.get? i := by
  rw [pyGet, pyIdx_coe]
  by_cases h : i < l.length
  · rw [if_pos h]; rfl
  · rw [if_neg h, Option.none_bind, eq_comm, List.get?_eq_none]
    omega

theorem pyIdx_big (len : Nat) (i : Int) (h : (len : Int) ≤ i) :
    pyIdx len i = none := by
  rw [pyIdx, if_pos (le_trans (Int.ofNat_nonneg len) h), if_neg (by omega)]

theorem pyIdx_small (len : Nat) (i : Int) (h : i < -(len : Int)) :
    pyIdx len i = none := by
  rw [pyIdx, if_neg (by omega), if_neg (by omega)]

theorem pyInsert_zero (l : List Cell) (a : Cell) : pyInsert l 0 a = a :: l := by
  rw [pyInsert, if_pos (Nat.zero_le _), List.insertIdx_zero]

theorem pyInsert_succ_cons (x : Cell) (l : List Cell) (i : Nat) (a : Cell) :
    pyInsert (x :: l) (i + 1) a = x :: pyInsert l i a := by
  by_cases h : i ≤ l.length
  · rw [pyInsert, if_pos (by simpa using Nat.succ_le_succ h),
      List.insertIdx_succ_cons, pyInsert, if_pos h]
  · rw [pyInsert, if_neg (by simpa using fun hh => h (Nat.succ_le_succ_iff.mp hh)),
      pyInsert, if_neg h]
    rfl

theorem pyInsert_perm (l : List Cell) (i : Nat) (a : Cell) :
    (pyInsert l i a).Perm (a :: l) := by
  induction l generalizing i with
  | nil =>
    cases i with
    | zero => rw [pyInsert_zero]
    | succ i => rw [pyInsert, if_neg (by simp)]; rfl
  | cons x l ih =>
    cases i with
    | zero => rw [pyInsert_zero]
    | succ i =>
      rw [pyInsert_succ_cons]
      exact ((ih i).cons x).trans (List.Perm.swap a x l)

theorem pyInsert_length (l : List Cell) (i : Nat) (a : Cell) :
    (pyInsert l i a).length = l.length + 1 :=
  (pyInsert_perm l i a).length_eq

/-! ### The pruned-pool computation of `room_constraint` -/

theorem freeCount_add_assigned (scope : List Variable) :
    freeCount scope + (assignedVals scope).length = scope.length := by
  induction scope with
  | nil => rfl
  | cons v rest ih =>
    cases h : v.assignedValue with
    | none =>
      simp [freeCount, assignedVals, List.filter_cons, List.filterMap_cons, h] at *
      omega
    | some val =>
      simp [freeCount, assignedVals, List.filter_cons, List.filterMap_cons, h] at *
      omega

theorem insertAll_nil (t : List Cell) : insertAll [] t = t := rfl

theorem insertAll_cons (p : Nat × Cell) (found : List (Nat × Cell)) (t : List Cell) :
    insertAll (p :: found) t = insertAll found (pyInsert t p.1 p.2) := rfl

theorem insertAll_shift (found : List (Nat × Cell)) (x : Cell) (t : List Cell) :
    insertAll (shiftFound found) (x :: t) = x :: insertAll found t := by
  induction found generalizing t with
  | nil => rfl
  | cons p rest ih =>
    rw [shiftFound, List.map_cons, insertAll_cons, pyInsert_succ_cons, ← shiftFound,
      ih, insertAll_cons]

theorem insertFound_eq_map (found : List (Nat × Cell)) (tups : List (List Cell)) :
    insertFound found tups = tups.map (insertAll found) := by
  induction found generalizing tups with
  | nil => simp [insertFound, show insertAll [] = fun t : List Cell => t from rfl]
  | cons p rest ih =>
    rw [insertFound, List.foldl_cons, ← insertFound, ih, List.map_map]
    rfl

theorem assignedVals_cons_none {v : Variable} (rest : List Variable)
    (h : v.assignedValue = none) : assignedVals (v :: rest) = assignedVals rest := by
  simp [assignedVals, List.filterMap_cons, h]

theorem assignedVals_cons_some {v : Variable} (rest : List Variable) {val : Cell}
    (h : v.assignedValue = some val) :
    assignedVals (v :: rest) = val :: assignedVals rest := by
  simp [assignedVals, List.filterMap_cons, h]

theorem freeCount_cons_none {v : Variable} (rest : List Variable)
    (h : v.assignedValue = none) : freeCount (v :: rest) = freeCount rest + 1 := by
  simp [freeCount, List.filter_cons, h]

theorem freeCount_cons_some {v : Variable} (rest : List Variable) {val : Cell}
    (h : v.assignedValue = some val) : freeCount (v :: rest) = freeCount rest := by
  simp [freeCount, List.filter_cons, h]

theorem collectFound_shift (scope : List Variable) :
    ∀ (i : Nat) (it : List Cell),
      collectFound scope (i + 1) it =
        (collectFound scope i it).map fun r => (shiftFound r.1, r.2) := by
  induction scope with
  | nil => intro i it; rfl
  | cons v rest ih =>
    intro i it
    cases h : v.assignedValue with
    | none =>
      simp only [collectFound, h]
      exact ih (i + 1) it
    | some val =>
      simp only [collectFound, h]
      cases hr : pyRemove it val with
      | none => rfl
      | some it2 =>
        simp only [Option.some_bind, ih (i + 1) it2, Option.map_map]
        cases collectFound rest (i + 1) it2 with
        | none => rfl
        | some r => simp [shiftFound]

theorem collectFound_unassigned (scope : List Variable)
    (h : ∀ v ∈ scope, v.assignedValue = none) :
    ∀ (i : Nat) (it : List Cell), collectFound scope i it = some ([], it) := by
  induction scope with
  | nil => intro i it; rfl
  | cons v rest ih =>
    intro i it
    rw [collectFound]
    rw [h v (List.mem_cons_self v rest)]
    exact ih (fun w hw => h w (List.mem_cons_of_mem v hw)) (i + 1) it

/-- Master lemma on the pruning loop: when the assigned values of the scope
are pairwise distinct and drawn from the (duplicate-free) pool, the loop
succeeds, removes exactly those values from the pool, and the reinsertion
of the recorded values into any tuple of free values produces the reference
interleaving `mergeTuple`. -/
theorem collectFound_master (scope : List Variable) :
    ∀ it : List Cell, it.Nodup → (assignedVals scope).Nodup →
      (∀ v ∈ assignedVals scope, v ∈ it) →
      ∃ found it2, collectFound scope 0 it = some (found, it2) ∧
        it2.length + (assignedVals scope).length = it.length ∧
        it2.Nodup ∧
        it.Perm (assignedVals scope ++ it2) ∧
        (∀ t : List Cell, t.length = freeCount scope →
          insertAll found t = mergeTuple scope t) := by
  induction scope with
  | nil =>
    intro it hnd _ _
    exact ⟨[], it, rfl, by simp [assignedVals], hnd, by simp [assignedVals],
      fun t _ => rfl⟩
  | cons v rest ih =>
    intro it hnd hvn hsub
    cases h : v.assignedValue with
    | none =>
      rw [assignedVals_cons_none rest h] at hvn hsub
      obtain ⟨found, it2, hcf, hlen, hnd2, hperm, hins⟩ := ih it hnd hvn hsub
      refine ⟨shiftFound found, it2, ?_, ?_, hnd2, ?_, ?_⟩
      · rw [collectFound, h, collectFound_shift rest 0 it, hcf]; rfl
      · rw [assignedVals_cons_none rest h]; exact hlen
      · rw [assignedVals_cons_none rest h]; exact hperm
      · intro t ht
        rw [freeCount_cons_none rest h] at ht
        cases t with
        | nil => simp at ht
        | cons x t2 =>
          rw [insertAll_shift, hins t2 (by simpa using ht)]
          simp [mergeTuple, h]
    | some val =>
      rw [assignedVals_cons_some rest h, List.nodup_cons] at hvn
      have hmem : val ∈ it := hsub val (by rw [assignedVals_cons_some rest h]; exact List.mem_cons_self _ _)
      have hsub2 : ∀ w ∈ assignedVals rest, w ∈ it.erase val := by
        intro w hw
        refine (List.mem_erase_of_ne fun he => hvn.1 ?_).mpr ?_
        · rw [← he]; exact hw
        · exact hsub w (by rw [assignedVals_cons_some rest h]; exact List.mem_cons_of_mem _ hw)
      obtain ⟨found, it2, hcf, hlen, hnd3, hperm, hins⟩ :=
        ih (it.erase val) (hnd.erase val) hvn.2 hsub2
      have hrem : pyRemove it val = some (it.erase val) := if_pos hmem
      refine ⟨(0, val) :: shiftFound found, it2, ?_, ?_, hnd3, ?_, ?_⟩
      · simp only [collectFound, h, hrem, Option.some_bind, collectFound_shift rest 0, hcf]
        rfl
      · have h1 : (it.erase val).length + 1 = it.length := List.length_erase_add_one hmem
        rw [assignedVals_cons_some rest h, List.length_cons]
        omega
      · rw [assignedVals_cons_some rest h]
        exact (List.perm_cons_erase hmem).trans (hperm.cons val)
      · intro t ht
        rw [freeCount_cons_some rest h] at ht
        rw [insertAll_cons, pyInsert_zero, insertAll_shift, hins t ht]
        simp [mergeTuple, h]

theorem mergeTuple_perm (scope : List Variable) :
    ∀ t : List Cell, t.length = freeCount scope →
      (mergeTuple scope t).Perm (assignedVals scope ++ t) := by
  induction scope with
  | nil => intro t _; simp [mergeTuple, assignedVals]
  | cons v rest ih =>
    intro t ht
    cases h : v.assignedValue with
    | some val =>
      rw [freeCount_cons_some rest h] at ht
      rw [assignedVals_cons_some rest h]
      simpa [mergeTuple, h] using (ih t ht).cons val
    | none =>
      rw [freeCount_cons_none rest h] at ht
      cases t with
      | nil => simp at ht
      | cons x t2 =>
        rw [assignedVals_cons_none rest h]
        have := (ih t2 (by simpa using ht)).cons x
        simp only [mergeTuple, h]
        exact this.trans (List.Perm.symm (List.perm_middle))

theorem mergeTuple_get (scope : List Variable) :
    ∀ (t : List Cell) (i : Nat) (var : Variable) (val : Cell),
      t.length = freeCount scope → scope.get? i = some var →
      var.assignedValue = some val → (mergeTuple scope t).get? i = some val := by
  induction scope with
  | nil => intro t i var val _ hv _; simp at hv
  | cons v rest ih =>
    intro t i var val ht hv ha
    cases h : v.assignedValue with
    | some w =>
      rw [freeCount_cons_some rest h] at ht
      cases i with
      | zero =>
        simp only [List.get?_cons_zero, Option.some_inj] at hv
        subst hv
        rw [h] at ha
        simp [mergeTuple, h, ha]
      | succ i =>
        simp only [List.get?_cons_succ] at hv
        simp only [mergeTuple, h, List.get?_cons_succ]
        exact ih t i var val ht hv ha
    | none =>
      rw [freeCount_cons_none rest h] at ht
      cases t with
      | nil => simp at ht
      | cons x t2 =>
        cases i with
        | zero =>
          simp only [List.get?_cons_zero, Option.some_inj] at hv
          subst hv
          rw [h] at ha
          exact absurd ha (by simp)
        | succ i =>
          simp only [List.get?_cons_succ] at hv
          simp only [mergeTuple, h, List.get?_cons_succ]
          exact ih t2 i var val (by simpa using ht) hv ha

theorem scopeOf_length (varArray : List (List Variable)) :
    ∀ (room : List (Int × Int)) (scope : List Variable),
      scopeOf varArray room = some scope → scope.length = room.length := by
  intro room
  induction room with
  | nil =>
    intro scope h
    rw [scopeOf] at h
    injection h with h2
    rw [← h2]
    rfl
  | cons cell rest ih =>
    intro scope h
    rw [scopeOf] at h
    cases hv : (pyGet varArray cell.1).bind fun row => pyGet row cell.2 with
    | none => rw [hv] at h; simp at h
    | some v =>
      rw [hv, Option.some_bind] at h
      cases hs : scopeOf varArray rest with
      | none => rw [hs] at h; simp at h
      | some s =>
        rw [hs] at h
        injection h with h
        subst h
        rw [List.length_cons, List.length_cons, ih s hs]

theorem itList_length (k : Nat) : (itList k).length = k := by
  rw [itList, List.length_map, List.length_range]

theorem itList_nodup (k : Nat) : (itList k).Nodup := by
  refine List.Nodup.map ?_ (List.nodup_range k)
  intro a b hab
  have : ((a : Int)) + 1 = ((b : Int)) + 1 := by
    injection hab
  omega

theorem mem_itList (k : Nat) (c : Cell) :
    c ∈ itList k ↔ ∃ v : Int, c = Cell.num v ∧ 1 ≤ v ∧ v ≤ (k : Int) := by
  rw [itList]
  simp only [List.mem_map, List.mem_range]
  constructor
  · rintro ⟨n, hn, rfl⟩
    exact ⟨(n : Int) + 1, rfl, by omega, by omega⟩
  · rintro ⟨v, rfl, h1, h2⟩
    refine ⟨(v - 1).toNat, by omega, ?_⟩
    congr 1
    omega

/-- C1: the table of a room constraint over a scope with consistent,
non-conflicting, in-range fixed values. -/
theorem roomConstraint_table (varArray : List (List Variable))
    (room : List (Int × Int)) (kidx : Nat) (scope : List Variable)
    (hscope : scopeOf varArray room = some scope)
    (hnd : (assignedVals scope).Nodup)
    (hsub : ∀ v ∈ assignedVals scope, v ∈ itList room.length) :
    ∃ c, roomConstraint varArray room kidx = some c ∧ c.scope = scope ∧
      c.satTuples.length =
        Nat.factorial (room.length - (assignedVals scope).length) ∧
      (∀ t ∈ c.satTuples, t.Perm (itList room.length)) ∧
      (∀ t ∈ c.satTuples, ∀ i v val, scope.get? i = some v →
        v.assignedValue = some val → t.get? i = some val) ∧
      ((∀ v ∈ scope, v.assignedValue = none) →
        ∀ t, t ∈ c.satTuples ↔ t.Perm (itList room.length)) := by
  obtain ⟨found, it2, hcf, hlen, hnd2, hperm, hins⟩ :=
    collectFound_master scope (itList room.length) (itList_nodup _) hnd hsub
  rw [itList_length] at hlen
  have hslen : scope.length = room.length := scopeOf_length varArray room scope hscope
  have hfree : freeCount scope + (assignedVals scope).length = scope.length :=
    freeCount_add_assigned scope
  have hrc : roomConstraint varArray room kidx =
      some (Constraint.addSatisfyingTuples
        ⟨"C" ++ toString kidx, scope, []⟩ (insertFound found it2.permutations')) := by
    simp [roomConstraint, hscope, hcf]
  have hsat : (Constraint.addSatisfyingTuples
      ⟨"C" ++ toString kidx, scope, []⟩ (insertFound found it2.permutations')).satTuples
      = (it2.permutations').map (insertAll found) := by
    rw [Constraint.addSatisfyingTuples, insertFound_eq_map]
    simp
  have hmem : ∀ t, t ∈ (it2.permutations').map (insertAll found) →
      ∃ t0, t0.Perm it2 ∧ t0.length = freeCount scope ∧ t = mergeTuple scope t0 := by
    intro t ht
    rw [List.mem_map] at ht
    obtain ⟨t0, ht0, rfl⟩ := ht
    have hp : t0.Perm it2 := List.mem_permutations'.mp ht0
    have hl : t0.length = freeCount scope := by
      rw [hp.length_eq]; omega
    exact ⟨t0, hp, hl, (hins t0 hl)⟩
  have hlperm : it2.permutations'.length = Nat.factorial it2.length := by
    rw [← (List.permutations_perm_permutations' it2).length_eq,
      List.length_permutations]
  refine ⟨_, hrc, rfl, ?_, ?_, ?_, ?_⟩
  · rw [hsat, List.length_map, hlperm]
    congr 1
    omega
  · intro t ht
    rw [hsat] at ht
    obtain ⟨t0, hp, hl, rfl⟩ := hmem t ht
    refine (mergeTuple_perm scope t0 hl).trans ?_
    exact ((hp.append_left (assignedVals scope)).trans hperm.symm)
  · intro t ht i v val hv ha
    rw [hsat] at ht
    obtain ⟨t0, hp, hl, rfl⟩ := hmem t ht
    exact mergeTuple_get scope t0 i v val hl hv ha
  · intro hall t
    have h0 : collectFound scope 0 (itList room.length) =
        some ([], itList room.length) :=
      collectFound_unassigned scope hall 0 (itList room.length)
    rw [hcf] at h0
    injection h0 with h0
    have hf : found = [] := by
      have h1 := congrArg Prod.fst h0; simpa using h1
    have hit : it2 = itList room.length := by
      have h1 := congrArg Prod.snd h0; simpa using h1
    rw [hsat, hf, hit]
    simp only [show insertAll [] = fun t : List Cell => t from rfl, List.map_id']
    exact List.mem_permutations'

/-- C1 witness: the hypotheses of `roomConstraint_table` hold for a concrete
room with one consistent in-range clue, and the theorem applies. -/
theorem roomConstraint_table_witness :
    (scopeOf w1Grid w1Room = some w1Scope) ∧
    ((assignedVals w1Scope).Nodup) ∧
    (∀ v ∈ assignedVals w1Scope, v ∈ itList w1Room.length) ∧
    (∃ c, roomConstraint w1Grid w1Room 1 = some c ∧ c.scope = w1Scope ∧
      c.satTuples.length =
        Nat.factorial (w1Room.length - (assignedVals w1Scope).length) ∧
      (∀ t ∈ c.satTuples, t.Perm (itList w1Room.length)) ∧
      (∀ t ∈ c.satTuples, ∀ i v val, w1Scope.get? i = some v →
        v.assignedValue = some val → t.get? i = some val) ∧
      ((∀ v ∈ w1Scope, v.assignedValue = none) →
        ∀ t, t ∈ c.satTuples ↔ t.Perm (itList w1Room.length))) :=
  ⟨by decide, by decide, by decide,
    roomConstraint_table w1Grid w1Room 1 w1Scope (by decide) (by decide) (by decide)⟩

/-! ### Failure of the pruning loop on conflicting or out-of-range clues -/

theorem collectFound_missing (scope : List Variable) :
    ∀ (it : List Cell) (v : Cell), v ∈ assignedVals scope → v ∉ it →
      ∀ i, collectFound scope i it = none := by
  induction scope with
  | nil => intro it v hv _ _; simp [assignedVals] at hv
  | cons w rest ih =>
    intro it v hv hnot i
    cases h : w.assignedValue with
    | none =>
      rw [assignedVals_cons_none rest h] at hv
      simp only [collectFound, h]
      exact ih it v hv hnot (i + 1)
    | some val =>
      rw [assignedVals_cons_some rest h] at hv
      simp only [collectFound, h]
      by_cases hval : val ∈ it
      · have hrem : pyRemove it val = some (it.erase val) := if_pos hval
        rcases List.mem_cons.mp hv with hv1 | hv2
        · subst hv1
          exact absurd hval hnot
        · have hnot2 : v ∉ it.erase val := fun hmem =>
            hnot (List.mem_of_mem_erase hmem)
          rw [hrem, Option.some_bind, ih (it.erase val) v hv2 hnot2 (i + 1)]
          rfl
      · have hrem : pyRemove it val = none := if_neg hval
        rw [hrem, Option.none_bind]

theorem collectFound_dup (scope : List Variable) :
    ∀ it : List Cell, it.Nodup → ¬(assignedVals scope).Nodup →
      ∀ i, collectFound scope i it = none := by
  induction scope with
  | nil => intro it _ hdup _; simp [assignedVals] at hdup
  | cons w rest ih =>
    intro it hnd hdup i
    cases h : w.assignedValue with
    | none =>
      rw [assignedVals_cons_none rest h] at hdup
      simp only [collectFound, h]
      exact ih it hnd hdup (i + 1)
    | some val =>
      rw [assignedVals_cons_some rest h, List.nodup_cons] at hdup
      simp only [collectFound, h]
      by_cases hval : val ∈ it
      · have hrem : pyRemove it val = some (it.erase val) := if_pos hval
        rw [hrem, Option.some_bind]
        by_cases hmem : val ∈ assignedVals rest
        · have hnot : val ∉ it.erase val := hnd.not_mem_erase
          rw [collectFound_missing rest (it.erase val) val hmem hnot (i + 1)]
          rfl
        · have hdup2 : ¬(assignedVals rest).Nodup := fun hn => hdup ⟨hmem, hn⟩
          rw [ih (it.erase val) (hnd.erase val) hdup2 (i + 1)]
          rfl
      · have hrem : pyRemove it val = none := if_neg hval
        rw [hrem, Option.none_bind]

/-- C4 (amended): a room with two clue-fixed cells holding the same value
makes `room_constraint` raise (the second `it.remove` fails), rather than
complete with an empty table. -/
theorem roomConstraint_conflict (varArray : List (List Variable))
    (room : List (Int × Int)) (kidx : Nat) (scope : List Variable)
    (hscope : scopeOf varArray room = some scope)
    (hdup : ¬(assignedVals scope).Nodup) :
    roomConstraint varArray room kidx = none := by
  have h0 := collectFound_dup scope (itList room.length) (itList_nodup _) hdup 0
  simp [roomConstraint, hscope, h0]

/-- C4 counterexample: on an over-constrained room `room_constraint` does
not complete with an empty table — it raises (returns `none`). -/
theorem roomConstraint_conflict_cex : roomConstraint c4Grid c4Room 1 = none := by
  decide

/-- C4 witness: the amended statement applies to the concrete
over-constrained room. -/
theorem roomConstraint_conflict_witness :
    (scopeOf c4Grid c4Room = some c4Scope) ∧
    (¬(assignedVals c4Scope).Nodup) ∧
    roomConstraint c4Grid c4Room 2 = none :=
  ⟨by decide, by decide,
    roomConstraint_conflict c4Grid c4Room 2 c4Scope (by decide) (by decide)⟩

/-- C3 (amended): a clue strictly greater than its room's size is accepted
by `make_variable`, but `room_constraint` then raises when removing the
out-of-range value from the pool `1..k`, so model construction fails. -/
theorem roomConstraint_out_of_range (varArray : List (List Variable))
    (room : List (Int × Int)) (kidx : Nat) (scope : List Variable) (v : Int)
    (hscope : scopeOf varArray room = some scope)
    (hv : Cell.num v ∈ assignedVals scope)
    (hgt : (room.length : Int) < v) :
    roomConstraint varArray room kidx = none := by
  have hnot : Cell.num v ∉ itList room.length := by
    rw [mem_itList]
    rintro ⟨w, hw, h1, h2⟩
    injection hw with hw
    omega
  have h0 := collectFound_missing scope (itList room.length) (Cell.num v) hv hnot 0
  simp [roomConstraint, hscope, h0]

/-- C3 counterexample: a board whose single cell carries the clue `2`
inside a room of size 1; the claim says a model is still returned, but
`ripple_effect_csp_model` fails (the out-of-range clue makes
`room_constraint` raise). -/
theorem rippleModel_out_of_range_cex :
    rippleEffectCspModel [[Cell.num 2]] [[(0, 0)]] = none := by
  decide

theorem roomConstraint_out_of_range_witness :
    (scopeOf c3Grid [(0, 0)] = some c3Scope) ∧
    (Cell.num 2 ∈ assignedVals c3Scope) ∧
    (([(0, 0)] : List (Int × Int)).length : Int) < 2 ∧
    roomConstraint c3Grid [(0, 0)] 1 = none :=
  ⟨by decide, by decide, by decide,
    roomConstraint_out_of_range c3Grid [(0, 0)] 1 c3Scope 2
      (by decide) (by decide) (by decide)⟩

/-! ### The precomputed distance tables of `space_constraint` -/

theorem mem_prodPairs (R : Nat) (p : List Cell) :
    p ∈ prodPairs R ↔ ∃ v1 v2 : Int, p = [Cell.num v1, Cell.num v2] ∧
      1 ≤ v1 ∧ v1 ≤ (R : Int) ∧ 1 ≤ v2 ∧ v2 ≤ (R : Int) := by
  rw [prodPairs]
  simp only [List.mem_map]
  constructor
  · rintro ⟨q, hq, rfl⟩
    have hq2 : q.1 ∈ List.range R ∧ q.2 ∈ List.range R := by
      have := @List.mem_product _ _ (List.range R) (List.range R) q.1 q.2
      simpa using this.mp hq
    simp only [List.mem_range] at hq2
    exact ⟨(q.1 : Int) + 1, (q.2 : Int) + 1, rfl, by omega, by omega, by omega, by omega⟩
  · rintro ⟨v1, v2, rfl, h1, h2, h3, h4⟩
    refine ⟨((v1 - 1).toNat, (v2 - 1).toNat), ?_, ?_⟩
    · have := @List.mem_product _ _ (List.range R) (List.range R)
        (v1 - 1).toNat (v2 - 1).toNat
      refine this.mpr ?_
      simp only [List.mem_range]
      omega
    · have e1 : (((v1 - 1).toNat : Int)) + 1 = v1 := by omega
      have e2 : (((v2 - 1).toNat : Int)) + 1 = v2 := by omega
      rw [e1, e2]

theorem prodPairs_nodup (R : Nat) : (prodPairs R).Nodup := by
  rw [prodPairs]
  refine List.Nodup.map ?_ (List.Nodup.product (List.nodup_range R) (List.nodup_range R))
  intro p q hpq
  simp only [List.cons.injEq, Cell.num.injEq, and_true] at hpq
  have h1 : p.1 = q.1 := by omega
  have h2 : p.2 = q.2 := by omega
  exact Prod.ext h1 h2

theorem mem_diagPairs (R n : Nat) (p : List Cell) :
    p ∈ diagPairs R n ↔ ∃ v : Int, p = [Cell.num v, Cell.num v] ∧
      (n : Int) + 1 ≤ v ∧ v ≤ (R : Int) := by
  rw [diagPairs]
  simp only [List.mem_map, List.mem_range]
  constructor
  · rintro ⟨m, hm, rfl⟩
    exact ⟨((n + 1 + m : Nat) : Int), rfl, by omega, by omega⟩
  · rintro ⟨v, rfl, h1, h2⟩
    refine ⟨(v - 1 - n).toNat, by omega, ?_⟩
    have e : ((n + 1 + (v - 1 - n).toNat : Nat) : Int) = v := by omega
    rw [e]

theorem diagPairs_nodup (R n : Nat) : (diagPairs R n).Nodup := by
  rw [diagPairs]
  refine List.Nodup.map ?_ (List.nodup_range _)
  intro a b hab
  simp only [List.cons.injEq, Cell.num.injEq, and_true] at hab
  omega

theorem diagPairs_sub (R n : Nat) : ∀ d ∈ diagPairs R n, d ∈ prodPairs R := by
  intro d hd
  rw [mem_diagPairs] at hd
  obtain ⟨v, rfl, h1, h2⟩ := hd
  rw [mem_prodPairs]
  exact ⟨v, v, rfl, by omega, h2, by omega, h2⟩

theorem removeDiag_spec (ds : List (List Cell)) :
    ∀ tbl : List (List Cell), tbl.Nodup → ds.Nodup → (∀ d ∈ ds, d ∈ tbl) →
      ∃ tbl2, removeDiag ds tbl = some tbl2 ∧ tbl2.Nodup ∧
        (∀ p, p ∈ tbl2 ↔ p ∈ tbl ∧ p ∉ ds) := by
  induction ds with
  | nil =>
    intro tbl hnd _ _
    exact ⟨tbl, rfl, hnd, by simp⟩
  | cons d rest ih =>
    intro tbl hnd hds hsub
    rw [List.nodup_cons] at hds
    have hd : d ∈ tbl := hsub d (List.mem_cons_self d rest)
    have hsub2 : ∀ e ∈ rest, e ∈ tbl.erase d := by
      intro e he
      refine (List.mem_erase_of_ne fun hed => hds.1 ?_).mpr
        (hsub e (List.mem_cons_of_mem d he))
      rw [← hed]; exact he
    obtain ⟨tbl2, hrd, hnd2, hmem⟩ := ih (tbl.erase d) (hnd.erase d) hds.2 hsub2
    have hrem : pyRemove tbl d = some (tbl.erase d) := if_pos hd
    refine ⟨tbl2, ?_, hnd2, ?_⟩
    · rw [removeDiag, hrem, Option.some_bind, hrd]
    · intro p
      rw [hmem p, hnd.mem_erase_iff]
      simp only [List.mem_cons]
      tauto

theorem nDistAux_spec (R : Nat) (ns : List Nat) :
    ∃ tbls, nDistAux R ns = some tbls ∧ tbls.length = ns.length ∧
      ∀ i n, ns.get? i = some n → ∃ tbl, tbls.get? i = some tbl ∧
        ∀ p, p ∈ tbl ↔ p ∈ prodPairs R ∧ p ∉ diagPairs R n := by
  induction ns with
  | nil => exact ⟨[], rfl, rfl, by intro i n h; simp at h⟩
  | cons n rest ih =>
    obtain ⟨tbls, hna, hlen, hspec⟩ := ih
    obtain ⟨tbl, hrd, _, hmem⟩ :=
      removeDiag_spec (diagPairs R n) (prodPairs R) (prodPairs_nodup R)
        (diagPairs_nodup R n) (diagPairs_sub R n)
    refine ⟨tbl :: tbls, ?_, by simp [hlen], ?_⟩
    · rw [nDistAux, hrd, Option.some_bind, hna]
      rfl
    · intro i m hm
      cases i with
      | zero =>
        simp only [List.get?_cons_zero, Option.some_inj] at hm
        subst hm
        exact ⟨tbl, rfl, hmem⟩
      | succ i =>
        simp only [List.get?_cons_succ] at hm ⊢
        exact hspec i m hm

theorem rowCon_spec (varArray : List (List Variable)) (tbls : List (List (List Cell)))
    (i : Nat) (t : Nat × Nat × Nat) (c : Constraint)
    (h : rowCon varArray tbls i t = some c) :
    ∃ row v1 v2 tbl, varArray.get? i = some row ∧ row.get? t.1 = some v1 ∧
      row.get? t.2.1 = some v2 ∧ tbls.get? t.2.2 = some tbl ∧
      c = Constraint.addSatisfyingTuples (makeConstraint v1 v2) tbl := by
  rw [rowCon] at h
  simp only [Option.bind_eq_bind'] at h
  cases hrow : varArray.get? i with
  | none => rw [hrow, Option.none_bind] at h; exact absurd h (by simp)
  | some row =>
    rw [hrow, Option.some_bind] at h
    cases hv1 : row.get? t.1 with
    | none => rw [hv1, Option.none_bind] at h; exact absurd h (by simp)
    | some v1 =>
      rw [hv1, Option.some_bind] at h
      cases hv2 : row.get? t.2.1 with
      | none => rw [hv2, Option.none_bind] at h; exact absurd h (by simp)
      | some v2 =>
        rw [hv2, Option.some_bind] at h
        cases htb : tbls.get? t.2.2 with
        | none => rw [htb, Option.none_bind] at h; exact absurd h (by simp)
        | some tbl =>
          rw [htb, Option.some_bind] at h
          injection h with h
          exact ⟨row, v1, v2, tbl, rfl, hv1, hv2, rfl, h.symm⟩

theorem colCon_spec (varArray : List (List Variable)) (tbls : List (List (List Cell)))
    (i : Nat) (t : Nat × Nat × Nat) (c : Constraint)
    (h : colCon varArray tbls i t = some c) :
    ∃ row1 row2 v1 v2 tbl, varArray.get? t.1 = some row1 ∧ row1.get? i = some v1 ∧
      varArray.get? t.2.1 = some row2 ∧ row2.get? i = some v2 ∧
      tbls.get? t.2.2 = some tbl ∧
      c = Constraint.addSatisfyingTuples (makeConstraint v1 v2) tbl := by
  rw [colCon] at h
  simp only [Option.bind_eq_bind'] at h
  cases hrow : varArray.get? t.1 with
  | none => rw [hrow, Option.none_bind] at h; exact absurd h (by simp)
  | some row1 =>
    rw [hrow, Option.some_bind] at h
    cases hv1 : row1.get? i with
    | none => rw [hv1, Option.none_bind] at h; exact absurd h (by simp)
    | some v1 =>
      rw [hv1, Option.some_bind] at h
      cases hrow2 : varArray.get? t.2.1 with
      | none => rw [hrow2, Option.none_bind] at h; exact absurd h (by simp)
      | some row2 =>
        rw [hrow2, Option.some_bind] at h
        cases hv2 : row2.get? i with
        | none => rw [hv2, Option.none_bind] at h; exact absurd h (by simp)
        | some v2 =>
          rw [hv2, Option.some_bind] at h
          cases htb : tbls.get? t.2.2 with
          | none => rw [htb, Option.none_bind] at h; exact absurd h (by simp)
          | some tbl =>
            rw [htb, Option.some_bind] at h
            injection h with h
            exact ⟨row1, row2, v1, v2, tbl, rfl, hv1, rfl, hv2, rfl, h.symm⟩

/-- C2: for every candidate distance `1 ≤ d ≤ R`, the precomputed table
`T[d] = n_dist_tuples[d-1]` contains every ordered pair over `{1,…,R}`
except exactly the equal pairs `(v, v)` with `v ≥ d`, and the constraint
built for any cell pair matched at distance `d` carries exactly this
table. -/
theorem spaceTable_spec (R d : Nat) (h1 : 1 ≤ d) (h2 : d ≤ R) :
    ∃ tbls tbl, nDistTuples R = some tbls ∧ tbls.get? (d - 1) = some tbl ∧
      (∀ v1 v2 : Int, [Cell.num v1, Cell.num v2] ∈ tbl ↔
        (1 ≤ v1 ∧ v1 ≤ (R : Int) ∧ 1 ≤ v2 ∧ v2 ≤ (R : Int) ∧
          (v1 = v2 → v1 < (d : Int)))) ∧
      (∀ p ∈ tbl, ∃ v1 v2 : Int, p = [Cell.num v1, Cell.num v2]) ∧
      (∀ (varArray : List (List Variable)) (i : Nat) (t : Nat × Nat × Nat)
        (c : Constraint), t.2.2 = d - 1 → rowCon varArray tbls i t = some c →
        c.satTuples = tbl) ∧
      (∀ (varArray : List (List Variable)) (i : Nat) (t : Nat × Nat × Nat)
        (c : Constraint), t.2.2 = d - 1 → colCon varArray tbls i t = some c →
        c.satTuples = tbl) := by
  obtain ⟨tbls, hna, hlen, hspec⟩ := nDistAux_spec R (List.range R)
  have hr : (List.range R).get? (d - 1) = some (d - 1) :=
    List.get?_range (by omega)
  obtain ⟨tbl, htbl, hmem⟩ := hspec (d - 1) (d - 1) hr
  have hchar : ∀ v1 v2 : Int, [Cell.num v1, Cell.num v2] ∈ tbl ↔
      (1 ≤ v1 ∧ v1 ≤ (R : Int) ∧ 1 ≤ v2 ∧ v2 ≤ (R : Int) ∧
        (v1 = v2 → v1 < (d : Int))) := by
    intro v1 v2
    rw [hmem, mem_prodPairs, mem_diagPairs]
    constructor
    · rintro ⟨⟨w1, w2, heq, hb1, hb2, hb3, hb4⟩, hnd⟩
      simp only [List.cons.injEq, Cell.num.injEq, and_true] at heq
      obtain ⟨e1, e2⟩ := heq
      subst e1; subst e2
      refine ⟨hb1, hb2, hb3, hb4, fun hv => ?_⟩
      by_contra hlt
      exact hnd ⟨v1, by rw [hv], by omega, by omega⟩
    · rintro ⟨hb1, hb2, hb3, hb4, himp⟩
      refine ⟨⟨v1, v2, rfl, hb1, hb2, hb3, hb4⟩, ?_⟩
      rintro ⟨v, heq, hg1, hg2⟩
      simp only [List.cons.injEq, Cell.num.injEq, and_true] at heq
      obtain ⟨e1, e2⟩ := heq
      subst e1; subst e2
      have := himp rfl
      omega
  refine ⟨tbls, tbl, hna, htbl, hchar, ?_, ?_, ?_⟩
  · intro p hp
    have := (hmem p).mp hp
    rw [mem_prodPairs] at this
    obtain ⟨v1, v2, rfl, _⟩ := this.1
    exact ⟨v1, v2, rfl⟩
  · intro varArray i t c ht hc
    obtain ⟨row, v1, v2, tbl2, _, _, _, htb2, hceq⟩ :=
      rowCon_spec varArray tbls i t c hc
    rw [ht, htbl] at htb2
    injection htb2 with htb2
    subst htb2
    rw [hceq]
    simp [Constraint.addSatisfyingTuples, makeConstraint]
  · intro varArray i t c ht hc
    obtain ⟨row1, row2, v1, v2, tbl2, _, _, _, _, htb2, hceq⟩ :=
      colCon_spec varArray tbls i t c hc
    rw [ht, htbl] at htb2
    injection htb2 with htb2
    subst htb2
    rw [hceq]
    simp [Constraint.addSatisfyingTuples, makeConstraint]

/-- C2 witness: the table for distance `1` with ceiling `R = 2`. -/
theorem spaceTable_spec_witness :
    (1 ≤ 1 ∧ 1 ≤ 2) ∧
    (∃ tbls tbl, nDistTuples 2 = some tbls ∧ tbls.get? 0 = some tbl ∧
      (∀ v1 v2 : Int, [Cell.num v1, Cell.num v2] ∈ tbl ↔
        (1 ≤ v1 ∧ v1 ≤ (2 : Int) ∧ 1 ≤ v2 ∧ v2 ≤ (2 : Int) ∧
          (v1 = v2 → v1 < (1 : Int)))) ∧
      (∀ p ∈ tbl, ∃ v1 v2 : Int, p = [Cell.num v1, Cell.num v2]) ∧
      (∀ (varArray : List (List Variable)) (i : Nat) (t : Nat × Nat × Nat)
        (c : Constraint), t.2.2 = 0 → rowCon varArray tbls i t = some c →
        c.satTuples = tbl) ∧
      (∀ (varArray : List (List Variable)) (i : Nat) (t : Nat × Nat × Nat)
        (c : Constraint), t.2.2 = 0 → colCon varArray tbls i t = some c →
        c.satTuples = tbl)) :=
  ⟨⟨le_refl 1, by omega⟩, spaceTable_spec 2 1 (le_refl 1) (by omega)⟩

/-! ### The pair/distance enumeration of `space_constraint` -/

theorem range_filterMap_dist {β : Type} (R d : Nat) (f : Nat → β) :
    (List.range R).filterMap (fun n => if d = n + 1 then some (f n) else none) =
      if 1 ≤ d ∧ d ≤ R then [f (d - 1)] else [] := by
  induction R with
  | zero => rw [List.range_zero, List.filterMap_nil, if_neg (by omega)]
  | succ R ih =>
    rw [List.range_succ, List.filterMap_append, ih]
    by_cases h1 : d = R + 1
    · rw [if_neg (by omega), if_pos (by omega)]
      simp [h1]
    · by_cases h2 : 1 ≤ d ∧ d ≤ R
      · rw [if_pos h2, if_pos (by omega)]
        simp [h1]
      · rw [if_neg h2, if_neg (by omega)]
        simp [h1]

theorem flatMap_eq_filterMap {γ β : Type} {l : List γ} {f : γ → List β}
    {g : γ → Option β} (h : ∀ x ∈ l, f x = (g x).toList) :
    l.flatMap f = l.filterMap g := by
  induction l with
  | nil => rfl
  | cons x rest ih =>
    rw [List.flatMap_cons, h x (List.mem_cons_self _ _),
      ih fun y hy => h y (List.mem_cons_of_mem _ hy), List.filterMap_cons]
    cases g x <;> simp

theorem spacePairs_eq (K R : Nat) :
    spacePairs K R = ((List.range K).product (List.range K)).filterMap
      fun p => if 1 ≤ pairDist p.1 p.2 ∧ pairDist p.1 p.2 ≤ R then
        some (p.1, p.2, pairDist p.1 p.2 - 1) else none := by
  rw [spacePairs]
  refine flatMap_eq_filterMap fun p _ => ?_
  rw [show (fun n => if ((p.1 : Int) - (p.2 : Int)).natAbs = n + 1 then
      some (p.1, p.2, n) else none) =
    (fun n => if pairDist p.1 p.2 = n + 1 then some (p.1, p.2, n) else none) from rfl]
  rw [range_filterMap_dist R (pairDist p.1 p.2) fun n => (p.1, p.2, n)]
  by_cases h : 1 ≤ pairDist p.1 p.2 ∧ pairDist p.1 p.2 ≤ R
  · rw [if_pos h, if_pos h]
    rfl
  · rw [if_neg h, if_neg h]
    rfl

theorem mem_spacePairs (K R a b n : Nat) :
    (a, b, n) ∈ spacePairs K R ↔
      a < K ∧ b < K ∧ pairDist a b = n + 1 ∧ n < R := by
  rw [spacePairs_eq]
  rw [List.mem_filterMap]
  constructor
  · rintro ⟨p, hp, hite⟩
    have hpp : p.1 ∈ List.range K ∧ p.2 ∈ List.range K := by
      have := @List.mem_product _ _ (List.range K) (List.range K) p.1 p.2
      simpa using this.mp hp
    simp only [List.mem_range] at hpp
    by_cases h : 1 ≤ pairDist p.1 p.2 ∧ pairDist p.1 p.2 ≤ R
    · rw [if_pos h] at hite
      injection hite with hite
      rw [Prod.ext_iff, Prod.ext_iff] at hite
      obtain ⟨e1, e2, e3⟩ := hite
      simp only at e1 e2 e3
      subst e1; subst e2; subst e3
      exact ⟨hpp.1, hpp.2, by omega, by omega⟩
    · rw [if_neg h] at hite
      exact absurd hite (by simp)
  · rintro ⟨ha, hb, hd, hn⟩
    refine ⟨(a, b), ?_, ?_⟩
    · have := @List.mem_product _ _ (List.range K) (List.range K) a b
      refine this.mpr ?_
      simp only [List.mem_range]
      exact ⟨ha, hb⟩
    · show (if 1 ≤ pairDist a b ∧ pairDist a b ≤ R then
        some (a, b, pairDist a b - 1) else none) = some (a, b, n)
      rw [if_pos (by omega)]
      have he : pairDist a b - 1 = n := by omega
      rw [he]

theorem spacePairs_nodup (K R : Nat) : (spacePairs K R).Nodup := by
  rw [spacePairs_eq]
  refine List.Nodup.filterMap ?_
    (List.Nodup.product (List.nodup_range K) (List.nodup_range K))
  intro p q y hyp hyq
  rw [Option.mem_def] at hyp hyq
  by_cases h1 : 1 ≤ pairDist p.1 p.2 ∧ pairDist p.1 p.2 ≤ R
  · rw [if_pos h1] at hyp
    by_cases h2 : 1 ≤ pairDist q.1 q.2 ∧ pairDist q.1 q.2 ≤ R
    · rw [if_pos h2] at hyq
      injection hyp with hyp
      injection hyq with hyq
      rw [← hyq] at hyp
      rw [Prod.ext_iff, Prod.ext_iff] at hyp
      obtain ⟨e1, e2, _⟩ := hyp
      exact Prod.ext e1 e2
    · rw [if_neg h2] at hyq
      exact absurd hyq (by simp)
  · rw [if_neg h1] at hyp
    exact absurd hyp (by simp)

theorem get?_getD {β : Type} {l : List β} (n : Nat) (d : β) (h : n < l.length) :
    l.get? n = some (l.getD n d) := by
  induction l generalizing n with
  | nil => simp at h
  | cons x rest ih =>
    cases n with
    | zero => rfl
    | succ n =>
      rw [List.get?_cons_succ, List.getD_cons_succ]
      exact ih n (by simpa using h)

theorem rowCon_eval (varArray : List (List Variable)) (tbls : List (List (List Cell)))
    (i : Nat) (t : Nat × Nat × Nat) (row : List Variable) (v1 v2 : Variable)
    (tbl : List (List Cell)) (hrow : varArray.get? i = some row)
    (h1 : row.get? t.1 = some v1) (h2 : row.get? t.2.1 = some v2)
    (ht : tbls.get? t.2.2 = some tbl) :
    rowCon varArray tbls i t =
      some (Constraint.addSatisfyingTuples (makeConstraint v1 v2) tbl) := by
  rw [rowCon]
  simp only [Option.bind_eq_bind', hrow, Option.some_bind, h1, h2, ht]
  rfl

theorem colCon_eval (varArray : List (List Variable)) (tbls : List (List (List Cell)))
    (i : Nat) (t : Nat × Nat × Nat) (row1 row2 : List Variable) (v1 v2 : Variable)
    (tbl : List (List Cell)) (hrow1 : varArray.get? t.1 = some row1)
    (h1 : row1.get? i = some v1) (hrow2 : varArray.get? t.2.1 = some row2)
    (h2 : row2.get? i = some v2) (ht : tbls.get? t.2.2 = some tbl) :
    colCon varArray tbls i t =
      some (Constraint.addSatisfyingTuples (makeConstraint v1 v2) tbl) := by
  rw [colCon]
  simp only [Option.bind_eq_bind', hrow1, Option.some_bind, h1, hrow2, h2, ht]
  rfl

theorem sweepPairs_eval (body : Nat → Nat × Nat × Nat → Option Constraint)
    (bodyEx : Nat → Nat × Nat × Nat → Constraint) (i : Nat) :
    ∀ pairs : List (Nat × Nat × Nat),
      (∀ t ∈ pairs, body i t = some (bodyEx i t)) →
      sweepPairs body i pairs = some (pairs.map (bodyEx i)) := by
  intro pairs
  induction pairs with
  | nil => intro _; rfl
  | cons t rest ih =>
    intro h
    rw [sweepPairs, h t (List.mem_cons_self _ _), Option.some_bind,
      ih fun y hy => h y (List.mem_cons_of_mem _ hy)]
    rfl

theorem sweep_eval (body : Nat → Nat × Nat × Nat → Option Constraint)
    (bodyEx : Nat → Nat × Nat × Nat → Constraint) :
    ∀ (idxs : List Nat) (pairs : List (Nat × Nat × Nat)) (acc : List Constraint),
      (∀ i ∈ idxs, ∀ t ∈ pairs, body i t = some (bodyEx i t)) →
      sweep body idxs pairs acc =
        some (acc ++ idxs.flatMap fun i => pairs.map (bodyEx i)) := by
  intro idxs
  induction idxs with
  | nil => intro pairs acc _; simp [sweep]
  | cons i rest ih =>
    intro pairs acc h
    rw [sweep, sweepPairs_eval body bodyEx i pairs (h i (List.mem_cons_self _ _)),
      Option.some_bind,
      ih pairs (acc ++ pairs.map (bodyEx i))
        fun j hj => h j (List.mem_cons_of_mem _ hj)]
    rw [List.flatMap_cons, List.append_assoc]

theorem spaceConstraint_eval (varArray : List (List Variable)) (R M N : Nat)
    (hN : varArray.length = N) (hM : ∀ row ∈ varArray, row.length = M) :
    ∃ tbls, nDistTuples R = some tbls ∧ tbls.length = R ∧
      spaceConstraint varArray R M N = some
        (((List.range N).flatMap fun i =>
            (spacePairs M R).map (rowConEx varArray tbls i)) ++
          ((List.range M).flatMap fun i =>
            (spacePairs N R).map (colConEx varArray tbls i))) := by
  obtain ⟨tbls, hna, hlen, _⟩ := nDistAux_spec R (List.range R)
  rw [List.length_range] at hlen
  refine ⟨tbls, hna, hlen, ?_⟩
  have hrowEval : ∀ i ∈ List.range N, ∀ t ∈ spacePairs M R,
      rowCon varArray tbls i t = some (rowConEx varArray tbls i t) := by
    intro i hi t htp
    obtain ⟨a, b, n⟩ := t
    rw [List.mem_range] at hi
    rw [mem_spacePairs] at htp
    obtain ⟨ha, hb, _, hnR⟩ := htp
    have hrow : varArray.get? i = some (varArray.getD i []) :=
      get?_getD i [] (by omega)
    have hrmem : varArray.getD i [] ∈ varArray := List.get?_mem hrow
    have hrlen : (varArray.getD i []).length = M := hM _ hrmem
    exact rowCon_eval varArray tbls i (a, b, n) _ _ _ _ hrow
      (get?_getD a var0 (by omega)) (get?_getD b var0 (by omega))
      (get?_getD n [] (by omega))
  have hcolEval : ∀ i ∈ List.range M, ∀ t ∈ spacePairs N R,
      colCon varArray tbls i t = some (colConEx varArray tbls i t) := by
    intro i hi t htp
    obtain ⟨a, b, n⟩ := t
    rw [List.mem_range] at hi
    rw [mem_spacePairs] at htp
    obtain ⟨ha, hb, _, hnR⟩ := htp
    have hrow1 : varArray.get? a = some (varArray.getD a []) :=
      get?_getD a [] (by omega)
    have hrow2 : varArray.get? b = some (varArray.getD b []) :=
      get?_getD b [] (by omega)
    have hr1len : (varArray.getD a []).length = M := hM _ (List.get?_mem hrow1)
    have hr2len : (varArray.getD b []).length = M := hM _ (List.get?_mem hrow2)
    exact colCon_eval varArray tbls i (a, b, n) _ _ _ _ _ hrow1
      (get?_getD i var0 (by omega)) hrow2 (get?_getD i var0 (by omega))
      (get?_getD n [] (by omega))
  rw [spaceConstraint]
  simp only [Option.bind_eq_bind', nDistTuples, hna, Option.some_bind]
  rw [sweep_eval (rowCon varArray tbls) (rowConEx varArray tbls)
    (List.range N) (spacePairs M R) [] hrowEval, Option.some_bind]
  rw [sweep_eval (colCon varArray tbls) (colConEx varArray tbls)
    (List.range M) (spacePairs N R) _ hcolEval]
  rw [List.nil_append]

/-- C5: on a well-formed `N × M` grid, `space_constraint` produces exactly
the row-sweep constraints followed by the column-sweep constraints: one
constraint per axis index and per matched triple `(a, b, n)`; the matched
triples are exactly the ordered pairs `a ≠ b` at distance `|a-b| = n+1 ≤ R`
(each matched by exactly one `n`, with no duplicates), scope order `(a, b)`
and table `T[|a-b|]`; pairs at distance greater than `R` (or zero) match no
triple and generate no constraint. -/
theorem spaceConstraint_generation (varArray : List (List Variable))
    (R M N : Nat) (hN : varArray.length = N)
    (hM : ∀ row ∈ varArray, row.length = M) :
    ∃ tbls, nDistTuples R = some tbls ∧
      spaceConstraint varArray R M N = some
        (((List.range N).flatMap fun i =>
            (spacePairs M R).map (rowConEx varArray tbls i)) ++
          ((List.range M).flatMap fun i =>
            (spacePairs N R).map (colConEx varArray tbls i))) ∧
      (∀ K a b n : Nat, (a, b, n) ∈ spacePairs K R ↔
        (a < K ∧ b < K ∧ ((a : Int) - (b : Int)).natAbs = n + 1 ∧ n < R)) ∧
      (∀ K : Nat, (spacePairs K R).Nodup) ∧
      (∀ (i : Nat) (t : Nat × Nat × Nat),
        (rowConEx varArray tbls i t).scope =
          [(varArray.getD i []).getD t.1 var0,
            (varArray.getD i []).getD t.2.1 var0] ∧
        (rowConEx varArray tbls i t).satTuples = tbls.getD t.2.2 []) ∧
      (∀ (i : Nat) (t : Nat × Nat × Nat),
        (colConEx varArray tbls i t).scope =
          [(varArray.getD t.1 []).getD i var0,
            (varArray.getD t.2.1 []).getD i var0] ∧
        (colConEx varArray tbls i t).satTuples = tbls.getD t.2.2 []) := by
  obtain ⟨tbls, hna, _, heq⟩ := spaceConstraint_eval varArray R M N hN hM
  refine ⟨tbls, hna, heq, ?_, fun K => spacePairs_nodup K R, ?_, ?_⟩
  · intro K a b n
    exact mem_spacePairs K R a b n
  · intro i t
    exact ⟨rfl, by simp [rowConEx, Constraint.addSatisfyingTuples, makeConstraint]⟩
  · intro i t
    exact ⟨rfl, by simp [colConEx, Constraint.addSatisfyingTuples, makeConstraint]⟩

/-- C5 witness: the generation theorem applies to a concrete well-formed
`1 × 2` grid with ceiling `R = 1`. -/
theorem spaceConstraint_generation_witness :
    (w5Grid.length = 1) ∧ (∀ row ∈ w5Grid, row.length = 2) ∧
    (∃ tbls, nDistTuples 1 = some tbls ∧
      spaceConstraint w5Grid 1 2 1 = some
        (((List.range 1).flatMap fun i =>
            (spacePairs 2 1).map (rowConEx w5Grid tbls i)) ++
          ((List.range 2).flatMap fun i =>
            (spacePairs 1 1).map (colConEx w5Grid tbls i))) ∧
      (∀ K a b n : Nat, (a, b, n) ∈ spacePairs K 1 ↔
        (a < K ∧ b < K ∧ ((a : Int) - (b : Int)).natAbs = n + 1 ∧ n < 1)) ∧
      (∀ K : Nat, (spacePairs K 1).Nodup) ∧
      (∀ (i : Nat) (t : Nat × Nat × Nat),
        (rowConEx w5Grid tbls i t).scope =
          [(w5Grid.getD i []).getD t.1 var0,
            (w5Grid.getD i []).getD t.2.1 var0] ∧
        (rowConEx w5Grid tbls i t).satTuples = tbls.getD t.2.2 []) ∧
      (∀ (i : Nat) (t : Nat × Nat × Nat),
        (colConEx w5Grid tbls i t).scope =
          [(w5Grid.getD t.1 []).getD i var0,
            (w5Grid.getD t.2.1 []).getD i var0] ∧
        (colConEx w5Grid tbls i t).satTuples = tbls.getD t.2.2 [])) :=
  ⟨by decide, by decide,
    spaceConstraint_generation w5Grid 1 2 1 (by decide) (by decide)⟩

/-! ### Cell-level behaviour of `make_variable` -/

theorem initGrid_wf (M N : Nat) : wfGrid (initGrid M N) M N := by
  constructor
  · rw [initGrid, List.length_map, List.length_range]
  · intro row hrow
    rw [initGrid, List.mem_map] at hrow
    obtain ⟨i, _, rfl⟩ := hrow
    rw [List.length_map, List.length_range]

theorem gridAt_initGrid (M N i j : Nat) (hi : i < N) (hj : j < M) :
    gridAt (initGrid M N) i j = some ⟨varName i j, [], none⟩ := by
  rw [gridAt, initGrid]
  rw [List.get?_map, List.get?_range hi, Option.map_some', Option.some_bind,
    List.get?_map, List.get?_range hj, Option.map_some']

theorem placeCell_canon (board : List (List Cell)) (k : Nat)
    (g : List (List Variable)) (M N a b : Nat) (hwf : wfGrid g M N)
    (ha : a < N) (hb : b < M) :
    (boardVal board a b = none →
      placeCell board k g ((a : Int), (b : Int)) = none) ∧
    (∀ val, boardVal board a b = some val →
      ∃ g', placeCell board k g ((a : Int), (b : Int)) = some g' ∧
        wfGrid g' M N ∧
        (∀ v, gridAt g a b = some v →
          gridAt g' a b = some (transformVar k val v)) ∧
        (∀ i j : Nat, (i, j) ≠ (a, b) → gridAt g' i j = gridAt g i j)) := by
  have hrow : pyGet g ((a : Int)) = g.get? a := pyGet_coe g a
  have hga : a < g.length := by rw [hwf.1]; exact ha
  obtain ⟨row, hrowv⟩ : ∃ row, g.get? a = some row :=
    ⟨g.getD a [], get?_getD a [] hga⟩
  have hrmem : row ∈ g := List.get?_mem hrowv
  have hrlen : row.length = M := hwf.2 row hrmem
  have hv : row.get? b = some (row.getD b var0) :=
    get?_getD b var0 (by omega)
  have hii : pyIdx g.length ((a : Int)) = some a := by
    rw [pyIdx_coe]; rw [if_pos hga]
  have hjj : pyIdx row.length ((b : Int)) = some b := by
    rw [pyIdx_coe]; rw [if_pos (by omega)]
  constructor
  · intro hbv
    rw [placeCell]
    simp only [Option.bind_eq_bind', hrow, hrowv, Option.some_bind,
      pyGet_coe, hv]
    rw [show boardVal board ((a : Int)) ((b : Int)) = none from hbv]
    rfl
  · intro val hbv
    set v0 := row.getD b var0 with hv0
    refine ⟨g.set a (row.set b (transformVar k val v0)), ?_, ?_, ?_, ?_⟩
    · rw [placeCell]
      simp only [Option.bind_eq_bind', hrow, hrowv, Option.some_bind,
        pyGet_coe, hv]
      rw [show boardVal board ((a : Int)) ((b : Int)) = some val from hbv]
      simp only [Option.some_bind, hii, hjj]
      rw [transformVar]
      by_cases hz : cellNeZero val
      · rw [if_pos hz]; rfl
      · rw [if_neg hz]; rfl
    · constructor
      · rw [List.length_set, hwf.1]
      · intro row' hrow'
        rcases List.mem_or_eq_of_mem_set hrow' with h | h
        · exact hwf.2 row' h
        · rw [h, List.length_set]; exact hrlen
    · intro v hval
      rw [gridAt, List.get?_set_eq_of_lt _ (by omega), Option.some_bind,
        List.get?_set_eq_of_lt _ (by omega)]
      rw [gridAt, hrowv, Option.some_bind, hv] at hval
      injection hval with hval
      rw [hval]
    · intro i j hij
      by_cases hia : i = a
      · subst hia
        have hjb : j ≠ b := fun hjb => hij (by rw [hjb])
        rw [gridAt, List.get?_set_eq_of_lt _ (by omega), Option.some_bind,
          List.get?_set_ne _ _ (fun h => hjb h.symm), gridAt, hrowv,
          Option.some_bind]
      · rw [gridAt, List.get?_set_ne _ _ (fun h => hia h.symm), gridAt]

theorem placeRoom_untouched (board : List (List Cell)) (k : Nat) (M N i j : Nat) :
    ∀ (cells : List (Int × Int)) (g g' : List (List Variable)), wfGrid g M N →
      (∀ c ∈ cells, canonCell c M N) →
      (∀ c ∈ cells, c ≠ ((i : Int), (j : Int))) →
      placeRoom board k cells g = some g' →
      wfGrid g' M N ∧ gridAt g' i j = gridAt g i j := by
  intro cells
  induction cells with
  | nil =>
    intro g g' hwf _ _ hpr
    rw [placeRoom] at hpr
    injection hpr with hpr
    rw [← hpr]
    exact ⟨hwf, rfl⟩
  | cons c rest ih =>
    intro g g' hwf hcanon hne hpr
    rw [placeRoom] at hpr
    obtain ⟨a, b, rfl, ha, hb⟩ := hcanon c (List.mem_cons_self _ _)
    cases hpc : placeCell board k g ((a : Int), (b : Int)) with
    | none => rw [hpc] at hpr; exact absurd hpr (by simp)
    | some g1 =>
      rw [hpc, Option.some_bind] at hpr
      cases hbv : boardVal board a b with
      | none =>
        rw [(placeCell_canon board k g M N a b hwf ha hb).1 hbv] at hpc
        exact absurd hpc (by simp)
      | some val =>
        obtain ⟨g1', hpc', hwf1, _, huntouched⟩ :=
          (placeCell_canon board k g M N a b hwf ha hb).2 val hbv
        rw [hpc] at hpc'
        injection hpc' with hpc'
        subst hpc'
        have hne1 : (i, j) ≠ (a, b) := by
          intro he
          refine hne _ (List.mem_cons_self _ _) ?_
          rw [Prod.ext_iff] at he
          obtain ⟨h1, h2⟩ := he
          simp only at h1 h2
          subst h1; subst h2
          rfl
        obtain ⟨hwf', heq⟩ := ih g1 g' hwf1
          (fun d hd => hcanon d (List.mem_cons_of_mem _ hd))
          (fun d hd => hne d (List.mem_cons_of_mem _ hd)) hpr
        exact ⟨hwf', heq.trans (huntouched i j hne1)⟩

theorem placeRoom_touched (board : List (List Cell)) (k : Nat) (M N i j : Nat)
    (hi : i < N) (hj : j < M) (val : Cell)
    (hbv : boardVal board i j = some val) :
    ∀ (cells : List (Int × Int)) (g g' : List (List Variable))
      (v : Variable), wfGrid g M N →
      (∀ c ∈ cells, canonCell c M N) →
      cells.count ((i : Int), (j : Int)) = 1 →
      placeRoom board k cells g = some g' →
      gridAt g i j = some v →
      wfGrid g' M N ∧ gridAt g' i j = some (transformVar k val v) := by
  intro cells
  induction cells with
  | nil =>
    intro g g' v _ _ hcount _ _
    simp at hcount
  | cons c rest ih =>
    intro g g' v hwf hcanon hcount hpr hval
    rw [placeRoom] at hpr
    obtain ⟨a, b, rfl, ha, hb⟩ := hcanon c (List.mem_cons_self _ _)
    cases hpc : placeCell board k g ((a : Int), (b : Int)) with
    | none => rw [hpc] at hpr; exact absurd hpr (by simp)
    | some g1 =>
      rw [hpc, Option.some_bind] at hpr
      by_cases hc : ((a : Int), (b : Int)) = ((i : Int), (j : Int))
      · -- this is the visit of the target cell
        have hab : a = i ∧ b = j := by
          rw [Prod.ext_iff] at hc
          obtain ⟨h1, h2⟩ := hc
          simp only at h1 h2
          omega
        obtain ⟨rfl, rfl⟩ := hab
        have hrest : rest.count ((a : Int), (b : Int)) = 0 := by
          rw [List.count_cons] at hcount
          simp at hcount
          omega
        have hnotin : ∀ c ∈ rest, c ≠ ((a : Int), (b : Int)) := by
          intro c hcmem hce
          rw [List.count_eq_zero] at hrest
          exact hrest (hce ▸ hcmem)
        obtain ⟨g1', hpc', hwf1, htouch, _⟩ :=
          (placeCell_canon board k g M N a b hwf ha hb).2 val hbv
        rw [hpc] at hpc'
        injection hpc' with hpc'
        subst hpc'
        obtain ⟨hwf', heq⟩ := placeRoom_untouched board k M N a b rest g1 g' hwf1
          (fun d hd => hcanon d (List.mem_cons_of_mem _ hd)) hnotin hpr
        exact ⟨hwf', heq.trans (htouch v hval)⟩
      · -- a different cell is visited first
        cases hbv2 : boardVal board a b with
        | none =>
          rw [(placeCell_canon board k g M N a b hwf ha hb).1 hbv2] at hpc
          exact absurd hpc (by simp)
        | some val2 =>
          obtain ⟨g1', hpc', hwf1, _, huntouched⟩ :=
            (placeCell_canon board k g M N a b hwf ha hb).2 val2 hbv2
          rw [hpc] at hpc'
          injection hpc' with hpc'
          subst hpc'
          have hcount1 : rest.count ((i : Int), (j : Int)) = 1 := by
            rw [List.count_cons] at hcount
            simp [hc] at hcount
            exact hcount
          have hne1 : (i, j) ≠ (a, b) := by
            intro he
            refine hc ?_
            rw [Prod.ext_iff] at he
            obtain ⟨h1, h2⟩ := he
            simp only at h1 h2
            subst h1; subst h2
            rfl
          have hval1 : gridAt g1 i j = some v := by
            rw [huntouched i j hne1]
            exact hval
          exact ih g1 g' v hwf1
            (fun d hd => hcanon d (List.mem_cons_of_mem _ hd)) hcount1 hpr hval1

theorem placeRooms_untouched (board : List (List Cell)) (M N i j : Nat) :
    ∀ (rooms : List (List (Int × Int))) (g g' : List (List Variable)),
      wfGrid g M N →
      (∀ c ∈ rooms.flatMap id, canonCell c M N) →
      (∀ c ∈ rooms.flatMap id, c ≠ ((i : Int), (j : Int))) →
      placeRooms board rooms g = some g' →
      wfGrid g' M N ∧ gridAt g' i j = gridAt g i j := by
  intro rooms
  induction rooms with
  | nil =>
    intro g g' hwf _ _ hpr
    rw [placeRooms] at hpr
    injection hpr with hpr
    rw [← hpr]
    exact ⟨hwf, rfl⟩
  | cons room rest ih =>
    intro g g' hwf hcanon hne hpr
    rw [placeRooms] at hpr
    cases hpq : placeRoom board room.length room g with
    | none => rw [hpq] at hpr; exact absurd hpr (by simp)
    | some g1 =>
      rw [hpq, Option.some_bind] at hpr
      have hflat : ∀ c ∈ room, c ∈ (room :: rest).flatMap id := by
        intro c hc
        rw [List.mem_flatMap]
        exact ⟨room, List.mem_cons_self _ _, hc⟩
      obtain ⟨hwf1, heq1⟩ := placeRoom_untouched board room.length M N i j room
        g g1 hwf (fun c hc => hcanon c (hflat c hc))
        (fun c hc => hne c (hflat c hc)) hpq
      have hflat2 : ∀ c ∈ rest.flatMap id, c ∈ (room :: rest).flatMap id := by
        intro c hc
        rw [List.mem_flatMap] at hc ⊢
        obtain ⟨r, hr, hcr⟩ := hc
        exact ⟨r, List.mem_cons_of_mem _ hr, hcr⟩
      obtain ⟨hwf', heq'⟩ := ih g1 g' hwf1
        (fun c hc => hcanon c (hflat2 c hc))
        (fun c hc => hne c (hflat2 c hc)) hpr
      exact ⟨hwf', heq'.trans heq1⟩

theorem placeRooms_touched (board : List (List Cell)) (M N i j : Nat)
    (hi : i < N) (hj : j < M) (val : Cell)
    (hbv : boardVal board i j = some val) :
    ∀ (rooms : List (List (Int × Int))) (room : List (Int × Int))
      (g g' : List (List Variable)) (v : Variable), wfGrid g M N →
      (∀ c ∈ rooms.flatMap id, canonCell c M N) →
      (rooms.flatMap id).count ((i : Int), (j : Int)) = 1 →
      room ∈ rooms → ((i : Int), (j : Int)) ∈ room →
      placeRooms board rooms g = some g' →
      gridAt g i j = some v →
      wfGrid g' M N ∧ gridAt g' i j = some (transformVar room.length val v) := by
  intro rooms
  induction rooms with
  | nil =>
    intro room g g' v _ _ _ hroom _ _ _
    simp at hroom
  | cons r rest ih =>
    intro room g g' v hwf hcanon hcount hroom hmem hpr hval
    rw [placeRooms] at hpr
    cases hpq : placeRoom board r.length r g with
    | none => rw [hpq] at hpr; exact absurd hpr (by simp)
    | some g1 =>
      rw [hpq, Option.some_bind] at hpr
      have hflat : ∀ c ∈ r, c ∈ (r :: rest).flatMap id := by
        intro c hc
        rw [List.mem_flatMap]
        exact ⟨r, List.mem_cons_self _ _, hc⟩
      have hflat2 : ∀ c ∈ rest.flatMap id, c ∈ (r :: rest).flatMap id := by
        intro c hc
        rw [List.mem_flatMap] at hc ⊢
        obtain ⟨rr, hr, hcr⟩ := hc
        exact ⟨rr, List.mem_cons_of_mem _ hr, hcr⟩
      have hsplit : r.count ((i : Int), (j : Int)) +
          (rest.flatMap id).count ((i : Int), (j : Int)) = 1 := by
        have : (r :: rest).flatMap id = r ++ rest.flatMap id := by
          rw [List.flatMap_cons]; rfl
        rw [this, List.count_append] at hcount
        exact hcount
      by_cases htin : ((i : Int), (j : Int)) ∈ r
      · -- the target is visited inside room r
        have hc1 : 1 ≤ r.count ((i : Int), (j : Int)) := by
          rw [Nat.one_le_iff_ne_zero]
          intro h0
          rw [List.count_eq_zero] at h0
          exact h0 htin
        have hcr : r.count ((i : Int), (j : Int)) = 1 := by omega
        have hcrest : (rest.flatMap id).count ((i : Int), (j : Int)) = 0 := by omega
        have hreq : room = r := by
          rcases List.mem_cons.mp hroom with h | h
          · exact h
          · exfalso
            have : ((i : Int), (j : Int)) ∈ rest.flatMap id := by
              rw [List.mem_flatMap]
              exact ⟨room, h, hmem⟩
            rw [List.count_eq_zero] at hcrest
            exact hcrest this
        subst hreq
        obtain ⟨hwf1, heq1⟩ := placeRoom_touched board room.length M N i j hi hj
          val hbv room g g1 v hwf (fun c hc => hcanon c (hflat c hc)) hcr hpq hval
        have hnotin : ∀ c ∈ rest.flatMap id, c ≠ ((i : Int), (j : Int)) := by
          intro c hc hce
          rw [List.count_eq_zero] at hcrest
          exact hcrest (hce ▸ hc)
        obtain ⟨hwf', heq'⟩ := placeRooms_untouched board M N i j rest g1 g' hwf1
          (fun c hc => hcanon c (hflat2 c hc)) hnotin hpr
        exact ⟨hwf', heq'.trans heq1⟩
      · -- the target is not in room r
        have hnotin : ∀ c ∈ r, c ≠ ((i : Int), (j : Int)) := by
          intro c hc hce
          exact htin (hce ▸ hc)
        obtain ⟨hwf1, heq1⟩ := placeRoom_untouched board r.length M N i j r
          g g1 hwf (fun c hc => hcanon c (hflat c hc)) hnotin hpq
        have hroomr : room ∈ rest := by
          rcases List.mem_cons.mp hroom with h | h
          · exact absurd (h ▸ hmem) htin
          · exact h
        have hc0 : r.count ((i : Int), (j : Int)) = 0 := by
          rw [List.count_eq_zero]
          exact htin
        exact ih room g1 g' v hwf1 (fun c hc => hcanon c (hflat2 c hc))
          (by omega) hroomr hmem hpr (heq1.trans hval)

/-- C6: after `make_variable`, a cell `(i, j)` occurring in exactly one
room, of size `k`: a zero board entry at raw position `(2i, 2j)` leaves the
variable unassigned with domain exactly `{1, …, k}`; a nonzero entry `c`
leaves it assigned `c` with singleton domain `{c}`. -/
theorem makeVariable_cell (board : List (List Cell))
    (rooms : List (List (Int × Int))) (M N : Nat)
    (grid : List (List Variable)) (i j : Nat) (room : List (Int × Int))
    (hcanon : ∀ c ∈ rooms.flatMap id, canonCell c M N)
    (hcount : (rooms.flatMap id).count ((i : Int), (j : Int)) = 1)
    (hroom : room ∈ rooms) (hmem : ((i : Int), (j : Int)) ∈ room)
    (hi : i < N) (hj : j < M)
    (hmv : makeVariable board rooms M N = some grid)
    (val : Cell) (hbv : boardVal board i j = some val) :
    (val = Cell.num 0 →
      gridAt grid i j = some ⟨varName i j, itList room.length, none⟩) ∧
    (∀ c : Int, c ≠ 0 → val = Cell.num c →
      gridAt grid i j = some ⟨varName i j, [Cell.num c], some (Cell.num c)⟩) := by
  rw [makeVariable] at hmv
  obtain ⟨_, heq⟩ := placeRooms_touched board M N i j hi hj val hbv rooms room
    (initGrid M N) grid ⟨varName i j, [], none⟩ (initGrid_wf M N) hcanon hcount
    hroom hmem hmv (gridAt_initGrid M N i j hi hj)
  constructor
  · intro hv
    subst hv
    rw [heq, transformVar, if_neg (by simp [cellNeZero])]
    rfl
  · intro c hc hv
    subst hv
    rw [heq, transformVar, if_pos (by simp [cellNeZero, hc])]
    rfl

/-- C6 witness: the theorem applies to a concrete board with a clue at cell
`(0, 1)`. -/
theorem makeVariable_cell_witness :
    ((w6Rooms.flatMap id).count ((0 : Int), (1 : Int)) = 1) ∧
    ([(0, 0), (0, 1), (0, 2)] ∈ w6Rooms) ∧
    (((0 : Int), (1 : Int)) ∈ [((0 : Int), (0 : Int)), (0, 1), (0, 2)]) ∧
    (makeVariable w6Board w6Rooms 3 1 = some w6Grid) ∧
    (boardVal w6Board 0 1 = some (Cell.num 2)) ∧
    ((Cell.num 2 = Cell.num 0 →
      gridAt w6Grid 0 1 =
        some ⟨varName 0 1, itList ([((0 : Int), (0 : Int)), (0, 1), (0, 2)]).length, none⟩) ∧
    (∀ c : Int, c ≠ 0 → Cell.num 2 = Cell.num c →
      gridAt w6Grid 0 1 = some ⟨varName 0 1, [Cell.num c], some (Cell.num c)⟩)) :=
  ⟨by decide, by decide, by decide, by decide, by decide,
    makeVariable_cell w6Board w6Rooms 3 1 w6Grid 0 1 [(0, 0), (0, 1), (0, 2)]
      (by
        intro c hc
        have hc2 : c = ((0 : Int), (0 : Int)) ∨ c = (0, 1) ∨ c = (0, 2) := by
          simpa [w6Rooms] using hc
        rcases hc2 with h | h | h
        · exact ⟨0, 0, by rw [h]; decide, by omega, by omega⟩
        · exact ⟨0, 1, by rw [h]; decide, by omega, by omega⟩
        · exact ⟨0, 2, by rw [h]; decide, by omega, by omega⟩)
      (by decide) (by decide) (by decide) (by omega) (by omega) (by decide)
      (Cell.num 2) (by decide)⟩

theorem pyGet_mem {β : Type} {l : List β} {i : Int} {x : β}
    (h : pyGet l i = some x) : x ∈ l := by
  rw [pyGet] at h
  cases hn : pyIdx l.length i with
  | none => rw [hn] at h; exact absurd h (by simp)
  | some n =>
    rw [hn, Option.some_bind] at h
    exact List.get?_mem h

theorem placeCell_wf (board : List (List Cell)) (k : Nat)
    (g g' : List (List Variable)) (M N : Nat) (c : Int × Int)
    (hwf : wfGrid g M N) (h : placeCell board k g c = some g') :
    wfGrid g' M N := by
  rw [placeCell] at h
  simp only [Option.bind_eq_bind'] at h
  cases hrow : pyGet g c.1 with
  | none => rw [hrow, Option.none_bind] at h; exact absurd h (by simp)
  | some row =>
    rw [hrow, Option.some_bind] at h
    cases hv : pyGet row c.2 with
    | none => rw [hv, Option.none_bind] at h; exact absurd h (by simp)
    | some v =>
      rw [hv, Option.some_bind] at h
      cases hbv : boardVal board c.1 c.2 with
      | none => rw [hbv, Option.none_bind] at h; exact absurd h (by simp)
      | some val =>
        rw [hbv, Option.some_bind] at h
        cases hii : pyIdx g.length c.1 with
        | none => rw [hii, Option.none_bind] at h; exact absurd h (by simp)
        | some ii =>
          rw [hii, Option.some_bind] at h
          cases hjj : pyIdx row.length c.2 with
          | none => rw [hjj, Option.none_bind] at h; exact absurd h (by simp)
          | some jj =>
            rw [hjj, Option.some_bind] at h
            injection h with h
            rw [← h]
            constructor
            · rw [List.length_set, hwf.1]
            · intro row' hrow'
              rcases List.mem_or_eq_of_mem_set hrow' with hmem | heq
              · exact hwf.2 row' hmem
              · rw [heq, List.length_set]
                exact hwf.2 row (pyGet_mem hrow)

theorem placeCell_bad (board : List (List Cell)) (k : Nat)
    (g : List (List Variable)) (M N : Nat) (c : Int × Int)
    (hwf : wfGrid g M N)
    (hbad : (N : Int) ≤ c.1 ∨ c.1 < -(N : Int) ∨
      (M : Int) ≤ c.2 ∨ c.2 < -(M : Int)) :
    placeCell board k g c = none := by
  rw [placeCell]
  simp only [Option.bind_eq_bind']
  by_cases h1 : (N : Int) ≤ c.1 ∨ c.1 < -(N : Int)
  · have hg : pyGet g c.1 = none := by
      rw [pyGet, hwf.1]
      rcases h1 with h | h
      · rw [pyIdx_big N c.1 h]; rfl
      · rw [pyIdx_small N c.1 h]; rfl
    rw [hg, Option.none_bind]
  · have h2 : (M : Int) ≤ c.2 ∨ c.2 < -(M : Int) := by tauto
    cases hrow : pyGet g c.1 with
    | none => rw [Option.none_bind]
    | some row =>
      rw [Option.some_bind]
      have hrlen : row.length = M := hwf.2 row (pyGet_mem hrow)
      have hr : pyGet row c.2 = none := by
        rw [pyGet, hrlen]
        rcases h2 with h | h
        · rw [pyIdx_big M c.2 h]; rfl
        · rw [pyIdx_small M c.2 h]; rfl
      rw [hr, Option.none_bind]

theorem placeRoom_bad (board : List (List Cell)) (k : Nat) (M N : Nat)
    (c : Int × Int)
    (hbad : (N : Int) ≤ c.1 ∨ c.1 < -(N : Int) ∨
      (M : Int) ≤ c.2 ∨ c.2 < -(M : Int)) :
    ∀ (cells : List (Int × Int)) (g : List (List Variable)), wfGrid g M N →
      c ∈ cells → placeRoom board k cells g = none := by
  intro cells
  induction cells with
  | nil => intro g _ hin; simp at hin
  | cons d rest ih =>
    intro g hwf hin
    rw [placeRoom]
    rcases List.mem_cons.mp hin with h | h
    · rw [← h, placeCell_bad board k g M N c hwf hbad]
      rfl
    · cases hpc : placeCell board k g d with
      | none => rfl
      | some g1 =>
        rw [Option.some_bind]
        exact ih g1 (placeCell_wf board k g g1 M N d hwf hpc) h

theorem placeRoom_wf (board : List (List Cell)) (k : Nat) (M N : Nat) :
    ∀ (cells : List (Int × Int)) (g g' : List (List Variable)), wfGrid g M N →
      placeRoom board k cells g = some g' → wfGrid g' M N := by
  intro cells
  induction cells with
  | nil =>
    intro g g' hwf h
    rw [placeRoom] at h
    injection h with h
    rw [← h]; exact hwf
  | cons d rest ih =>
    intro g g' hwf h
    rw [placeRoom] at h
    cases hpc : placeCell board k g d with
    | none => rw [hpc] at h; exact absurd h (by simp)
    | some g1 =>
      rw [hpc, Option.some_bind] at h
      exact ih g1 g' (placeCell_wf board k g g1 M N d hwf hpc) h

/-- C7 (amended): a room coordinate at or beyond the positive bounds, or
below the negative wrap range, makes `make_variable` raise `IndexError`
(no grid is produced).  For a negative coordinate inside the wrap range
no such out-of-bounds failure exists: the grid index silently wraps
(`pyIdx`), so construction can complete with the wrapped cell's variable
mutated (see the counterexample); at the wrap boundary `i = -N` the later
board read raises `IndexError` of its own instead (see
`makeVariable_wrap_boundary`). -/
theorem makeVariable_bad (board : List (List Cell))
    (rooms : List (List (Int × Int))) (M N : Nat)
    (room : List (Int × Int)) (c : Int × Int)
    (hroom : room ∈ rooms) (hc : c ∈ room)
    (hbad : (N : Int) ≤ c.1 ∨ c.1 < -(N : Int) ∨
      (M : Int) ≤ c.2 ∨ c.2 < -(M : Int)) :
    makeVariable board rooms M N = none := by
  rw [makeVariable]
  have hinit : wfGrid (initGrid M N) M N := initGrid_wf M N
  revert hinit
  generalize initGrid M N = g
  intro hwf
  induction rooms generalizing g with
  | nil => simp at hroom
  | cons r rest ih =>
    rw [placeRooms]
    rcases List.mem_cons.mp hroom with h | h
    · subst h
      rw [placeRoom_bad board room.length M N c hbad room g hwf hc]
      rfl
    · cases hpq : placeRoom board r.length r g with
      | none => rfl
      | some g1 =>
        rw [Option.some_bind]
        exact ih h g1 (placeRoom_wf board r.length M N r g g1 hwf hpq)

/-- C7 counterexample: a room referencing the out-of-bounds coordinate
`(-1, 0)` on a `1 × 2` logical grid.  Construction does not fail: a model
is returned, and the wrapped cell `(1, 0)` — which no room names — has had
its variable silently mutated (domain extended to `[1]`), while `(0, 0)`
keeps its empty domain. -/
theorem rippleModel_wrap_cex :
    ((rippleEffectCspModel [[Cell.num 0], [Cell.num 0], [Cell.num 0]]
      [[(-1, 0)]]).isSome = true) ∧
    ((rippleEffectCspModel [[Cell.num 0], [Cell.num 0], [Cell.num 0]]
      [[(-1, 0)]]).bind (fun p => gridAt p.2 1 0) =
      some ⟨"V1,0", [Cell.num 1], none⟩) ∧
    ((rippleEffectCspModel [[Cell.num 0], [Cell.num 0], [Cell.num 0]]
      [[(-1, 0)]]).bind (fun p => gridAt p.2 0 0) =
      some ⟨"V0,0", [], none⟩) := by
  refine ⟨?_, ?_, ?_⟩ <;> decide

/-- C7 witness: the amended statement applies to a concrete room
referencing `(2, 0)` on a `2 × 1` grid. -/
theorem makeVariable_bad_witness :
    ([((2 : Int), (0 : Int))] ∈ [[((2 : Int), (0 : Int))]]) ∧
    (((2 : Int), (0 : Int)) ∈ [((2 : Int), (0 : Int))]) ∧
    (((2 : Nat) : Int) ≤ (2 : Int) ∨ (2 : Int) < -((2 : Nat) : Int) ∨
      ((1 : Nat) : Int) ≤ (0 : Int) ∨ (0 : Int) < -((1 : Nat) : Int)) ∧
    makeVariable [[Cell.num 0], [Cell.num 0], [Cell.num 0]]
      [[((2 : Int), (0 : Int))]] 1 2 = none :=
  ⟨by decide, by decide, by decide,
    makeVariable_bad [[Cell.num 0], [Cell.num 0], [Cell.num 0]]
      [[((2 : Int), (0 : Int))]] 1 2 [((2 : Int), (0 : Int))]
      ((2 : Int), (0 : Int)) (by decide) (by decide) (by decide)⟩

/-- Boundary of the negative wrap range: for the room `[(-2, 0)]` on a
`3`-row board (`N = 2`), the grid index `-2` still wraps (to row `0`),
but the board read `board[-2 * 2]` is out of range on the `2N - 1`-row
board, so `make_variable` raises `IndexError` there — a wrap-range
coordinate is not guaranteed to complete construction, it merely escapes
the grid-bound failure. -/
theorem makeVariable_wrap_boundary :
    (makeVariable [[Cell.num 0], [Cell.num 0], [Cell.num 0]] [[(-2, 0)]] 1 2 =
      none) ∧
    (rippleEffectCspModel [[Cell.num 0], [Cell.num 0], [Cell.num 0]]
      [[(-2, 0)]] = none) :=
  ⟨by decide, by decide⟩

/-! ### The assembled model -/

theorem foldl_addVar_row (row : List Variable) :
    ∀ c : CSP, row.foldl CSP.addVar c =
      ⟨c.name, c.vars ++ row, c.rooms, c.cons⟩ := by
  induction row with
  | nil => intro c; simp
  | cons v rest ih =>
    intro c
    rw [List.foldl_cons, ih]
    simp [CSP.addVar]

theorem foldl_addVar_grid (va : List (List Variable)) :
    ∀ c : CSP, va.foldl (fun c row => row.foldl CSP.addVar c) c =
      ⟨c.name, c.vars ++ va.flatMap id, c.rooms, c.cons⟩ := by
  induction va with
  | nil => intro c; simp
  | cons row rest ih =>
    intro c
    rw [List.foldl_cons, foldl_addVar_row, ih]
    simp

theorem foldl_addRoom (l : List (List (Int × Int))) :
    ∀ c : CSP, l.foldl CSP.addRoom c = ⟨c.name, c.vars, c.rooms ++ l, c.cons⟩ := by
  induction l with
  | nil => intro c; simp
  | cons r rest ih =>
    intro c
    rw [List.foldl_cons, ih]
    simp [CSP.addRoom]

theorem foldl_addConstraint (l : List Constraint) :
    ∀ c : CSP, l.foldl CSP.addConstraint c =
      ⟨c.name, c.vars, c.rooms, c.cons ++ l⟩ := by
  induction l with
  | nil => intro c; simp
  | cons k rest ih =>
    intro c
    rw [List.foldl_cons, ih]
    simp [CSP.addConstraint]

/-- Inversion of `ripple_effect_csp_model`: a successful run decomposes
into the builder, the room-constraint comprehension, the ceiling, the
spatial generator, and the assembler registrations in order. -/
theorem rippleModel_spec (board : List (List Cell))
    (rooms : List (List (Int × Int))) (csp : CSP) (va : List (List Variable))
    (h : rippleEffectCspModel board rooms = some (csp, va)) :
    ∃ firstRow roomCons maxRsize spaceCons,
      pyGet board 0 = some firstRow ∧
      makeVariable board rooms ((firstRow.length + 1) / 2)
        ((board.length + 1) / 2) = some va ∧
      roomConsFrom va 0 rooms = some roomCons ∧
      pyMax (rooms.map List.length) = some maxRsize ∧
      spaceConstraint va maxRsize ((firstRow.length + 1) / 2)
        ((board.length + 1) / 2) = some spaceCons ∧
      csp = ⟨"Ripple_Effect", va.flatMap id, rooms, roomCons ++ spaceCons⟩ := by
  rw [rippleEffectCspModel] at h
  simp only [Option.bind_eq_bind'] at h
  cases hfr : pyGet board 0 with
  | none => rw [hfr, Option.none_bind] at h; exact absurd h (by simp)
  | some firstRow =>
    rw [hfr, Option.some_bind] at h
    cases hmv : makeVariable board rooms ((firstRow.length + 1) / 2)
        ((board.length + 1) / 2) with
    | none => rw [hmv, Option.none_bind] at h; exact absurd h (by simp)
    | some varArray =>
      rw [hmv, Option.some_bind] at h
      cases hrc : roomConsFrom varArray 0 rooms with
      | none => rw [hrc, Option.none_bind] at h; exact absurd h (by simp)
      | some roomCons =>
        rw [hrc, Option.some_bind] at h
        cases hmx : pyMax (rooms.map List.length) with
        | none => rw [hmx, Option.none_bind] at h; exact absurd h (by simp)
        | some maxRsize =>
          rw [hmx, Option.some_bind] at h
          cases hsc : spaceConstraint varArray maxRsize
              ((firstRow.length + 1) / 2) ((board.length + 1) / 2) with
          | none => rw [hsc, Option.none_bind] at h; exact absurd h (by simp)
          | some spaceCons =>
            rw [hsc, Option.some_bind] at h
            injection h with h
            have hva : varArray = va := congrArg Prod.snd h
            subst hva
            refine ⟨firstRow, roomCons, maxRsize, spaceCons, rfl, hmv, hrc,
              rfl, hsc, ?_⟩
            have hcsp : csp = _ := (congrArg Prod.fst h).symm
            rw [hcsp, foldl_addVar_grid, foldl_addRoom, foldl_addConstraint,
              foldl_addConstraint]
            simp

/-- C8: neither constraint generator mutates any variable — the grid the
full construction returns is exactly `make_variable`'s output, and the
variables registered in the model are exactly that grid's rows
concatenated. -/
theorem model_vars_frame (board : List (List Cell))
    (rooms : List (List (Int × Int))) (csp : CSP) (va : List (List Variable))
    (h : rippleEffectCspModel board rooms = some (csp, va)) :
    (∃ firstRow, pyGet board 0 = some firstRow ∧
      makeVariable board rooms ((firstRow.length + 1) / 2)
        ((board.length + 1) / 2) = some va) ∧
    csp.vars = va.flatMap id := by
  obtain ⟨firstRow, roomCons, maxRsize, spaceCons, hfr, hmv, _, _, _, hcsp⟩ :=
    rippleModel_spec board rooms csp va h
  exact ⟨⟨firstRow, hfr, hmv⟩, by rw [hcsp]⟩

/-- C8 witness: the frame theorem applies to the concrete `1 × 1` model. -/
theorem model_vars_frame_witness :
    (rippleEffectCspModel [[Cell.num 0]] [[(0, 0)]] = some (w8Csp, w8Va)) ∧
    ((∃ firstRow, pyGet [[Cell.num 0]] (0 : Int) = some firstRow ∧
      makeVariable [[Cell.num 0]] [[(0, 0)]] ((firstRow.length + 1) / 2)
        ((([[Cell.num 0]] : List (List Cell)).length + 1) / 2) = some w8Va) ∧
      w8Csp.vars = w8Va.flatMap id) :=
  ⟨by decide,
    model_vars_frame [[Cell.num 0]] [[(0, 0)]] w8Csp w8Va (by decide)⟩

/-- C9: model construction is deterministic — two runs on the same board
and room list return the same result; on success the grids are identical
and the constraint lists agree position by position in scope and in table
membership. -/
theorem model_deterministic (board : List (List Cell))
    (rooms : List (List (Int × Int)))
    (r1 r2 : Option (CSP × List (List Variable)))
    (h1 : rippleEffectCspModel board rooms = r1)
    (h2 : rippleEffectCspModel board rooms = r2) :
    r1 = r2 ∧
    ∀ csp1 va1 csp2 va2, r1 = some (csp1, va1) → r2 = some (csp2, va2) →
      va1 = va2 ∧ csp1.vars = csp2.vars ∧
      csp1.cons.length = csp2.cons.length ∧
      (∀ n, (csp1.cons.get? n).map Constraint.scope =
        (csp2.cons.get? n).map Constraint.scope) ∧
      (∀ n t, (∃ c, csp1.cons.get? n = some c ∧ t ∈ c.satTuples) ↔
        (∃ c, csp2.cons.get? n = some c ∧ t ∈ c.satTuples)) := by
  have hr : r1 = r2 := by rw [← h1, ← h2]
  subst hr
  refine ⟨rfl, ?_⟩
  intro csp1 va1 csp2 va2 e1 e2
  rw [e1] at e2
  injection e2 with e2
  have hc : csp1 = csp2 := congrArg Prod.fst e2
  have hv : va1 = va2 := congrArg Prod.snd e2
  subst hc; subst hv
  exact ⟨rfl, rfl, rfl, fun n => rfl, fun n t => Iff.rfl⟩

/-- C9 witness: the determinism theorem applied to two (identical) runs on
the concrete `1 × 1` model. -/
theorem model_deterministic_witness :
    (rippleEffectCspModel [[Cell.num 0]] [[(0, 0)]] =
      rippleEffectCspModel [[Cell.num 0]] [[(0, 0)]]) ∧
    ∀ csp1 va1 csp2 va2,
      rippleEffectCspModel [[Cell.num 0]] [[(0, 0)]] = some (csp1, va1) →
      rippleEffectCspModel [[Cell.num 0]] [[(0, 0)]] = some (csp2, va2) →
      va1 = va2 ∧ csp1.vars = csp2.vars ∧
      csp1.cons.length = csp2.cons.length ∧
      (∀ n, (csp1.cons.get? n).map Constraint.scope =
        (csp2.cons.get? n).map Constraint.scope) ∧
      (∀ n t, (∃ c, csp1.cons.get? n = some c ∧ t ∈ c.satTuples) ↔
        (∃ c, csp2.cons.get? n = some c ∧ t ∈ c.satTuples)) :=
  model_deterministic [[Cell.num 0]] [[(0, 0)]]
    (rippleEffectCspModel [[Cell.num 0]] [[(0, 0)]])
    (rippleEffectCspModel [[Cell.num 0]] [[(0, 0)]]) rfl rfl

theorem gridAt_getD (g : List (List Variable)) (i j : Nat) (v : Variable)
    (h : gridAt g i j = some v) : (g.getD i []).getD j var0 = v := by
  rw [gridAt] at h
  cases hrow : g.get? i with
  | none => rw [hrow] at h; exact absurd h (by simp)
  | some row =>
    rw [hrow, Option.some_bind] at h
    have hlt1 : i < g.length := by
      by_contra hge
      rw [List.get?_eq_none.mpr (by omega)] at hrow
      exact absurd hrow (by simp)
    have hlt2 : j < row.length := by
      by_contra hge
      rw [List.get?_eq_none.mpr (by omega)] at h
      exact absurd h (by simp)
    have h1 : g.getD i [] = row := by
      have h3 := get?_getD i ([] : List Variable) hlt1
      rw [hrow] at h3
      injection h3 with h3
      exact h3.symm
    rw [h1]
    have h2 := get?_getD j var0 hlt2
    rw [h] at h2
    injection h2 with h2
    exact h2.symm

/-! ### Success of the full construction on well-formed input -/

theorem placeRoom_succeeds (board : List (List Cell)) (k : Nat) (M N : Nat) :
    ∀ (cells : List (Int × Int)) (g : List (List Variable)), wfGrid g M N →
      (∀ c ∈ cells, canonCell c M N) →
      (∀ c ∈ cells, ∃ val, boardVal board c.1 c.2 = some val) →
      ∃ g', placeRoom board k cells g = some g' ∧ wfGrid g' M N := by
  intro cells
  induction cells with
  | nil => intro g hwf _ _; exact ⟨g, rfl, hwf⟩
  | cons c rest ih =>
    intro g hwf hcanon hbv
    obtain ⟨a, b, rfl, ha, hb⟩ := hcanon c (List.mem_cons_self _ _)
    obtain ⟨val, hval⟩ := hbv _ (List.mem_cons_self _ _)
    obtain ⟨g1, hpc, hwf1, _, _⟩ :=
      (placeCell_canon board k g M N a b hwf ha hb).2 val hval
    obtain ⟨g', hpr, hwf'⟩ := ih g1 hwf1
      (fun d hd => hcanon d (List.mem_cons_of_mem _ hd))
      (fun d hd => hbv d (List.mem_cons_of_mem _ hd))
    exact ⟨g', by rw [placeRoom, hpc, Option.some_bind]; exact hpr, hwf'⟩

theorem placeRooms_succeeds (board : List (List Cell)) (M N : Nat) :
    ∀ (rooms : List (List (Int × Int))) (g : List (List Variable)),
      wfGrid g M N →
      (∀ c ∈ rooms.flatMap id, canonCell c M N) →
      (∀ c ∈ rooms.flatMap id, ∃ val, boardVal board c.1 c.2 = some val) →
      ∃ g', placeRooms board rooms g = some g' ∧ wfGrid g' M N := by
  intro rooms
  induction rooms with
  | nil => intro g hwf _ _; exact ⟨g, rfl, hwf⟩
  | cons room rest ih =>
    intro g hwf hcanon hbv
    have hflat : ∀ c ∈ room, c ∈ (room :: rest).flatMap id := fun c hc =>
      List.mem_flatMap.mpr ⟨room, List.mem_cons_self _ _, hc⟩
    obtain ⟨g1, hpr, hwf1⟩ := placeRoom_succeeds board room.length M N room g
      hwf (fun c hc => hcanon c (hflat c hc)) (fun c hc => hbv c (hflat c hc))
    have hflat2 : ∀ c ∈ rest.flatMap id, c ∈ (room :: rest).flatMap id := by
      intro c hc
      rw [List.mem_flatMap] at hc ⊢
      obtain ⟨r, hr, hcr⟩ := hc
      exact ⟨r, List.mem_cons_of_mem _ hr, hcr⟩
    obtain ⟨g', hprs, hwf'⟩ := ih g1 hwf1
      (fun c hc => hcanon c (hflat2 c hc)) (fun c hc => hbv c (hflat2 c hc))
    exact ⟨g', by rw [placeRooms, hpr, Option.some_bind]; exact hprs, hwf'⟩

theorem scopeOf_succeeds (va : List (List Variable)) (M N : Nat)
    (hwf : wfGrid va M N) :
    ∀ room : List (Int × Int), (∀ c ∈ room, canonCell c M N) →
      ∃ scope, scopeOf va room = some scope := by
  intro room
  induction room with
  | nil => intro _; exact ⟨[], rfl⟩
  | cons c rest ih =>
    intro hcanon
    obtain ⟨a, b, rfl, ha, hb⟩ := hcanon c (List.mem_cons_self _ _)
    have hga : a < va.length := by rw [hwf.1]; omega
    have hrowg : va.get? a = some (va.getD a []) := get?_getD a [] hga
    have hrow : pyGet va ((a : Int)) = some (va.getD a []) := by
      rw [pyGet_coe]; exact hrowg
    have hrlen : (va.getD a []).length = M := hwf.2 _ (List.get?_mem hrowg)
    have hv : pyGet (va.getD a []) ((b : Int)) =
        some ((va.getD a []).getD b var0) := by
      rw [pyGet_coe]; exact get?_getD b var0 (by omega)
    obtain ⟨scope, hs⟩ := ih (fun d hd => hcanon d (List.mem_cons_of_mem _ hd))
    refine ⟨(va.getD a []).getD b var0 :: scope, ?_⟩
    rw [scopeOf]
    simp only [hrow, Option.some_bind, hv, hs, Option.map_some']

theorem roomConstraint_succeeds (varArray : List (List Variable))
    (room : List (Int × Int)) (kidx : Nat) (scope : List Variable)
    (hscope : scopeOf varArray room = some scope)
    (hnd : (assignedVals scope).Nodup)
    (hsub : ∀ v ∈ assignedVals scope, v ∈ itList room.length) :
    ∃ c, roomConstraint varArray room kidx = some c := by
  obtain ⟨found, it2, hcf, _, _, _, _⟩ :=
    collectFound_master scope (itList room.length) (itList_nodup _) hnd hsub
  exact ⟨Constraint.addSatisfyingTuples ⟨"C" ++ toString kidx, scope, []⟩
    (insertFound found it2.permutations'),
    by simp [roomConstraint, hscope, hcf]⟩

theorem roomConsFrom_succeeds (varArray : List (List Variable)) :
    ∀ (rooms : List (List (Int × Int))) (k : Nat),
      (∀ room ∈ rooms, ∀ kidx : Nat,
        ∃ c, roomConstraint varArray room kidx = some c) →
      ∃ cs, roomConsFrom varArray k rooms = some cs := by
  intro rooms
  induction rooms with
  | nil => intro k _; exact ⟨[], rfl⟩
  | cons room rest ih =>
    intro k hall
    obtain ⟨c, hc⟩ := hall room (List.mem_cons_self _ _) (k + 1)
    obtain ⟨cs, hcs⟩ := ih (k + 1) (fun r hr => hall r (List.mem_cons_of_mem _ hr))
    exact ⟨c :: cs, by rw [roomConsFrom, hc, Option.some_bind, hcs,
      Option.map_some']⟩

theorem pyMax_succeeds (rooms : List (List (Int × Int))) (h : rooms ≠ []) :
    ∃ m, pyMax (rooms.map List.length) = some m := by
  cases rooms with
  | nil => exact absurd rfl h
  | cons r rest => exact ⟨_, rfl⟩

/-- Forward assembly of `ripple_effect_csp_model`: when every stage
succeeds, the model is the assembled record over the builder's grid. -/
theorem rippleModel_forward (board : List (List Cell))
    (rooms : List (List (Int × Int))) (firstRow : List Cell)
    (va : List (List Variable)) (roomCons : List Constraint) (maxRsize : Nat)
    (spaceCons : List Constraint)
    (hfr : pyGet board 0 = some firstRow)
    (hmv : makeVariable board rooms ((firstRow.length + 1) / 2)
      ((board.length + 1) / 2) = some va)
    (hrc : roomConsFrom va 0 rooms = some roomCons)
    (hmx : pyMax (rooms.map List.length) = some maxRsize)
    (hsc : spaceConstraint va maxRsize ((firstRow.length + 1) / 2)
      ((board.length + 1) / 2) = some spaceCons) :
    rippleEffectCspModel board rooms =
      some (⟨"Ripple_Effect", va.flatMap id, rooms, roomCons ++ spaceCons⟩,
        va) := by
  rw [rippleEffectCspModel]
  simp only [Option.bind_eq_bind', hfr, Option.some_bind, hmv, hrc, hmx, hsc]
  rw [foldl_addVar_grid, foldl_addRoom, foldl_addConstraint,
    foldl_addConstraint]
  simp

/-- C10: a logical cell `(i, j)` named by no room does not break model
construction.  On an otherwise well-formed input — a first board row
exists, the room list is nonempty, every room cell is canonical and has a
board entry, and each room's clues are consistent (distinct and within
`1..|room|`) — construction succeeds; the uncovered cell's variable keeps
an empty domain and no assignment, is registered in the returned model,
and appears in the scope of every spatial constraint generated for its
row and for its column, in first as well as in second scope position. -/
theorem model_cell_no_room (board : List (List Cell))
    (rooms : List (List (Int × Int))) (firstRow : List Cell) (M N i j : Nat)
    (hfr : pyGet board 0 = some firstRow)
    (hM : M = (firstRow.length + 1) / 2) (hN : N = (board.length + 1) / 2)
    (hrooms : rooms ≠ [])
    (hcanon : ∀ c ∈ rooms.flatMap id, canonCell c M N)
    (hbv : ∀ c ∈ rooms.flatMap id, ∃ val, boardVal board c.1 c.2 = some val)
    (hcons : ∀ room ∈ rooms,
      ∀ (va : List (List Variable)) (scope : List Variable),
      makeVariable board rooms M N = some va → scopeOf va room = some scope →
      (assignedVals scope).Nodup ∧
        ∀ v ∈ assignedVals scope, v ∈ itList room.length)
    (hnotin : ((i : Int), (j : Int)) ∉ rooms.flatMap id)
    (hi : i < N) (hj : j < M) :
    ∃ csp va maxRsize tbls,
      rippleEffectCspModel board rooms = some (csp, va) ∧
      pyMax (rooms.map List.length) = some maxRsize ∧
      nDistTuples maxRsize = some tbls ∧
      gridAt va i j = some ⟨varName i j, [], none⟩ ∧
      (⟨varName i j, [], none⟩ : Variable) ∈ csp.vars ∧
      (∀ b n : Nat, (j, b, n) ∈ spacePairs M maxRsize →
        ∃ c, c ∈ csp.cons ∧
          c.scope = [(⟨varName i j, [], none⟩ : Variable),
            (va.getD i []).getD b var0] ∧
          c.satTuples = tbls.getD n []) ∧
      (∀ a n : Nat, (a, j, n) ∈ spacePairs M maxRsize →
        ∃ c, c ∈ csp.cons ∧
          c.scope = [(va.getD i []).getD a var0,
            (⟨varName i j, [], none⟩ : Variable)] ∧
          c.satTuples = tbls.getD n []) ∧
      (∀ b n : Nat, (i, b, n) ∈ spacePairs N maxRsize →
        ∃ c, c ∈ csp.cons ∧
          c.scope = [(⟨varName i j, [], none⟩ : Variable),
            (va.getD b []).getD j var0] ∧
          c.satTuples = tbls.getD n []) ∧
      (∀ a n : Nat, (a, i, n) ∈ spacePairs N maxRsize →
        ∃ c, c ∈ csp.cons ∧
          c.scope = [(va.getD a []).getD j var0,
            (⟨varName i j, [], none⟩ : Variable)] ∧
          c.satTuples = tbls.getD n []) := by
  subst hM
  subst hN
  obtain ⟨va, hmv0, hwf⟩ := placeRooms_succeeds board _ _ rooms (initGrid _ _)
    (initGrid_wf _ _) hcanon hbv
  have hmv : makeVariable board rooms ((firstRow.length + 1) / 2)
      ((board.length + 1) / 2) = some va := by
    rw [makeVariable]; exact hmv0
  have hallrc : ∀ room ∈ rooms, ∀ kidx : Nat,
      ∃ c, roomConstraint va room kidx = some c := by
    intro room hroom kidx
    have hrcanon : ∀ c ∈ room,
        canonCell c ((firstRow.length + 1) / 2) ((board.length + 1) / 2) :=
      fun c hc => hcanon c (List.mem_flatMap.mpr ⟨room, hroom, hc⟩)
    obtain ⟨scope, hscope⟩ := scopeOf_succeeds va _ _ hwf room hrcanon
    obtain ⟨hnd, hsub⟩ := hcons room hroom va scope hmv hscope
    exact roomConstraint_succeeds va room kidx scope hscope hnd hsub
  obtain ⟨roomCons, hrc⟩ := roomConsFrom_succeeds va rooms 0 hallrc
  obtain ⟨maxRsize, hmx⟩ := pyMax_succeeds rooms hrooms
  obtain ⟨tbls, hna, _, hsc⟩ := spaceConstraint_eval va maxRsize _ _ hwf.1 hwf.2
  have hmodel := rippleModel_forward board rooms firstRow va roomCons maxRsize
    _ hfr hmv hrc hmx hsc
  have hne : ∀ c ∈ rooms.flatMap id, c ≠ ((i : Int), (j : Int)) := fun c hc hce =>
    hnotin (hce ▸ hc)
  obtain ⟨_, hg⟩ := placeRooms_untouched board _ _ i j rooms (initGrid _ _)
    va (initGrid_wf _ _) hcanon hne hmv0
  have hcell : gridAt va i j = some ⟨varName i j, [], none⟩ := by
    rw [hg, gridAt_initGrid _ _ i j hi hj]
  have hvij : (va.getD i []).getD j var0 = ⟨varName i j, [], none⟩ :=
    gridAt_getD va i j _ hcell
  refine ⟨_, va, maxRsize, tbls, hmodel, hmx, hna, hcell, ?_, ?_, ?_, ?_, ?_⟩
  · show (⟨varName i j, [], none⟩ : Variable) ∈ va.flatMap id
    rw [gridAt] at hcell
    cases hrow : va.get? i with
    | none => rw [hrow] at hcell; exact absurd hcell (by simp)
    | some row =>
      rw [hrow, Option.some_bind] at hcell
      rw [List.mem_flatMap]
      refine ⟨row, List.get?_mem hrow, ?_⟩
      show _ ∈ id row
      exact List.get?_mem hcell
  · intro b n htp
    refine ⟨rowConEx va tbls i (j, b, n), ?_, ?_, ?_⟩
    · exact List.mem_append_right _ (List.mem_append_left _
        (List.mem_flatMap.mpr ⟨i, List.mem_range.mpr hi,
          List.mem_map.mpr ⟨(j, b, n), htp, rfl⟩⟩))
    · rw [rowConEx, Constraint.addSatisfyingTuples]
      simp only [makeConstraint]
      rw [hvij]
    · rw [rowConEx, Constraint.addSatisfyingTuples]
      simp [makeConstraint]
  · intro a n htp
    refine ⟨rowConEx va tbls i (a, j, n), ?_, ?_, ?_⟩
    · exact List.mem_append_right _ (List.mem_append_left _
        (List.mem_flatMap.mpr ⟨i, List.mem_range.mpr hi,
          List.mem_map.mpr ⟨(a, j, n), htp, rfl⟩⟩))
    · rw [rowConEx, Constraint.addSatisfyingTuples]
      simp only [makeConstraint]
      rw [hvij]
    · rw [rowConEx, Constraint.addSatisfyingTuples]
      simp [makeConstraint]
  · intro b n htp
    refine ⟨colConEx va tbls j (i, b, n), ?_, ?_, ?_⟩
    · exact List.mem_append_right _ (List.mem_append_right _
        (List.mem_flatMap.mpr ⟨j, List.mem_range.mpr hj,
          List.mem_map.mpr ⟨(i, b, n), htp, rfl⟩⟩))
    · rw [colConEx, Constraint.addSatisfyingTuples]
      simp only [makeConstraint]
      rw [hvij]
    · rw [colConEx, Constraint.addSatisfyingTuples]
      simp [makeConstraint]
  · intro a n htp
    refine ⟨colConEx va tbls j (a, i, n), ?_, ?_, ?_⟩
    · exact List.mem_append_right _ (List.mem_append_right _
        (List.mem_flatMap.mpr ⟨j, List.mem_range.mpr hj,
          List.mem_map.mpr ⟨(a, i, n), htp, rfl⟩⟩))
    · rw [colConEx, Constraint.addSatisfyingTuples]
      simp only [makeConstraint]
      rw [hvij]
    · rw [colConEx, Constraint.addSatisfyingTuples]
      simp [makeConstraint]

/-- C10 witness: the no-room theorem applies to cell `(0, 1)` of the
concrete `1 × 2` board whose single room covers only `(0, 0)` — all
well-formedness hypotheses hold, so the model is built with the uncovered
cell registered and constrained along its row and column. -/
theorem model_cell_no_room_witness :
    (((0 : Int), (1 : Int)) ∉ w10Rooms.flatMap id) ∧
    (w10Rooms ≠ []) ∧
    (∃ csp va maxRsize tbls,
      rippleEffectCspModel w10Board w10Rooms = some (csp, va) ∧
      pyMax (w10Rooms.map List.length) = some maxRsize ∧
      nDistTuples maxRsize = some tbls ∧
      gridAt va 0 1 = some ⟨varName 0 1, [], none⟩ ∧
      (⟨varName 0 1, [], none⟩ : Variable) ∈ csp.vars ∧
      (∀ b n : Nat, (1, b, n) ∈ spacePairs 2 maxRsize →
        ∃ c, c ∈ csp.cons ∧
          c.scope = [(⟨varName 0 1, [], none⟩ : Variable),
            (va.getD 0 []).getD b var0] ∧
          c.satTuples = tbls.getD n []) ∧
      (∀ a n : Nat, (a, 1, n) ∈ spacePairs 2 maxRsize →
        ∃ c, c ∈ csp.cons ∧
          c.scope = [(va.getD 0 []).getD a var0,
            (⟨varName 0 1, [], none⟩ : Variable)] ∧
          c.satTuples = tbls.getD n []) ∧
      (∀ b n : Nat, (0, b, n) ∈ spacePairs 1 maxRsize →
        ∃ c, c ∈ csp.cons ∧
          c.scope = [(⟨varName 0 1, [], none⟩ : Variable),
            (va.getD b []).getD 1 var0] ∧
          c.satTuples = tbls.getD n []) ∧
      (∀ a n : Nat, (a, 0, n) ∈ spacePairs 1 maxRsize →
        ∃ c, c ∈ csp.cons ∧
          c.scope = [(va.getD a []).getD 1 var0,
            (⟨varName 0 1, [], none⟩ : Variable)] ∧
          c.satTuples = tbls.getD n [])) :=
  ⟨by decide, by decide,
    model_cell_no_room w10Board w10Rooms [Cell.num 0, Cell.sep " ", Cell.num 0]
      2 1 0 1 (by decide) (by decide) (by decide) (by decide)
      (by
        intro c hc
        have hc2 : c = ((0 : Int), (0 : Int)) := by simpa [w10Rooms] using hc
        exact ⟨0, 0, by rw [hc2]; decide, by omega, by omega⟩)
      (by
        intro c hc
        have hc2 : c = ((0 : Int), (0 : Int)) := by simpa [w10Rooms] using hc
        exact ⟨Cell.num 0, by rw [hc2]; decide⟩)
      (by
        intro room hroom va scope hmv hscope
        have hva : va = w10Va := by
          have h0 : makeVariable w10Board w10Rooms 2 1 = some w10Va := by
            decide
          rw [h0] at hmv
          injection hmv with hmv
          exact hmv.symm
        subst hva
        have hr : room = [((0 : Int), (0 : Int))] := by
          simpa [w10Rooms] using hroom
        subst hr
        have h1 : scopeOf w10Va [((0 : Int), (0 : Int))] =
            some [⟨"V0,0", [Cell.num 1], none⟩] := by decide
        rw [h1] at hscope
        injection hscope with hscope
        subst hscope
        exact ⟨by decide, by decide⟩)
      (by decide) (by omega) (by omega)⟩
